import Mathlib

/-!
# loadcache: an expiring in-memory cache with load-on-miss

Shallow embedding of `local.go` and `loading.go`.

* Instants (`time.Time`) and durations (`time.Duration`) are integers
  (nanoseconds); `t.Add(d).Before(now)` is `t + d < now`. `Time.Add` does not
  wrap around (it saturates), so the integers are unbounded.
* Every operation calls `time.Now()` at most once on each path; that reading
  is the explicit argument `now`.
* The Go map `map[K]*record[V]` is an association list. The map holds one
  record per key, which is the predicate `storeWF`; the list order stands for
  the (unspecified) order in which `range` visits the map.
* Locks, the wait group and the stop channel are not modelled: every
  operation runs atomically.
* A Go runtime panic is a `Fault`.
* Two ghost traces record the calls made to caller-supplied functions:
  `onEvictCalls` (the eviction callback) and `loadCalls` (loaders).
-/

namespace Loadcache

/-- Go `error` values: `ErrNoCacheEntry` of `local.go`, or any other error
value (identified by a tag), such as one returned by a loader. -/
inductive Error where
  | ErrNoCacheEntry
  | other (tag : Nat)
  deriving DecidableEq, Repr

/-- A Go runtime panic. -/
inductive Fault where
  | nilDereference
  deriving DecidableEq, Repr

/-- The struct `record[T]` of `local.go`. -/
structure record (V : Type) where
  entry : V
  accessAt : Int
  writeAt : Int
  deriving DecidableEq, Repr

/-- The struct `LocalCache[K, V]` of `local.go`. `onEvict` says whether the
callback field is non-nil; `onEvictCalls` is the ghost trace of the calls made
to it, oldest first. -/
structure LocalCache (K V : Type) where
  store : List (K × record V)
  accessExpire : Option Int
  writeExpire : Option Int
  tickInterval : Int
  onEvict : Bool
  onEvictCalls : List (K × V)
  deriving DecidableEq, Repr

/-- Map index `c.store[id]`: the record stored under `id`, if any. -/
def storeLookup {K V : Type} [DecidableEq K] (id : K) :
    List (K × record V) → Option (record V)
  | [] => none
  | e :: rest => if e.1 = id then some e.2 else storeLookup id rest

/-- Builtin `delete(c.store, id)`. -/
def storeDelete {K V : Type} [DecidableEq K] (id : K) (s : List (K × record V)) :
    List (K × record V) :=
  s.filter (fun e => !decide (e.1 = id))

/-- Map assignment `c.store[id] = rec`. -/
def storeAssign {K V : Type} [DecidableEq K] (id : K) (rec : record V)
    (s : List (K × record V)) : List (K × record V) :=
  (id, rec) :: storeDelete id s

/-- The write `record.accessAt = now` through the pointer found under `id`. -/
def storeTouch {K V : Type} [DecidableEq K] (id : K) (now : Int) :
    List (K × record V) → List (K × record V)
  | [] => []
  | e :: rest =>
    if e.1 = id then (e.1, { e.2 with accessAt := now }) :: rest
    else e :: storeTouch id now rest

/-- A Go map holds at most one record per key. -/
def storeWF {K V : Type} (s : List (K × record V)) : Prop :=
  (s.map Prod.fst).Nodup

instance {K V : Type} [DecidableEq K] (s : List (K × record V)) : Decidable (storeWF s) :=
  inferInstanceAs (Decidable (List.Nodup _))

namespace LocalCache

variable {K V : Type} [DecidableEq K]

/-- `unsafeEvict` of `local.go`; `rec` is a pointer, `none` when nil. -/
def unsafeEvict (c : LocalCache K V) (id : K) (rec : Option (record V)) :
    Except Fault (LocalCache K V) := do
  let c1 ← (if c.onEvict then
      match rec with
      | none => Except.error Fault.nilDereference
      | some r => pure { c with onEvictCalls := c.onEvictCalls ++ [(id, r.entry)] }
    else pure c)
  pure { c1 with store := storeDelete id c1.store }

/-- `unsafeAccessExpire` of `local.go`. -/
def unsafeAccessExpire (c : LocalCache K V) (id : K) (rec : record V) (now : Int) :
    Except Fault (Bool × LocalCache K V) :=
  match c.accessExpire with
  | some d =>
    if rec.accessAt + d < now then do
      let c1 ← c.unsafeEvict id (some rec)
      pure (true, c1)
    else pure (false, c)
  | none => pure (false, c)

/-- `unsafeWriteExpire` of `local.go`. -/
def unsafeWriteExpire (c : LocalCache K V) (id : K) (rec : record V) (now : Int) :
    Except Fault (Bool × LocalCache K V) :=
  match c.writeExpire with
  | some d =>
    if rec.writeAt + d < now then do
      let c1 ← c.unsafeEvict id (some rec)
      pure (true, c1)
    else pure (false, c)
  | none => pure (false, c)

/-- Body of the `range` loop of `cleanup`, for one map entry. -/
def cleanupEntry (tick : Int) (c : LocalCache K V) (e : K × record V) :
    Except Fault (LocalCache K V) := do
  let (evicted, c1) ← c.unsafeAccessExpire e.1 e.2 tick
  if !evicted then
    let (_, c2) ← c1.unsafeWriteExpire e.1 e.2 tick
    pure c2
  else pure c1

/-- `cleanup` of `local.go`: the loop visits every entry the map holds when it
starts (the loop deletes nothing but the entry it is visiting). -/
def cleanup (c : LocalCache K V) (tick : Int) : Except Fault (LocalCache K V) :=
  c.store.foldlM (cleanupEntry tick) c

/-- `Cleanup` of `local.go`; `now` is the reading of `time.Now()`. -/
def Cleanup (c : LocalCache K V) (now : Int) : Except Fault (LocalCache K V) :=
  c.cleanup now

/-- `cleanupLoop` of `local.go`, for the ticks received before the stop. -/
def cleanupLoop (c : LocalCache K V) (ticks : List Int) : Except Fault (LocalCache K V) :=
  ticks.foldlM cleanup c

/-- `Get` of `local.go`: the pair `(entry, err)` and the cache afterwards. -/
def Get [Inhabited V] (c : LocalCache K V) (now : Int) (id : K) :
    (V × Option Error) × LocalCache K V :=
  match storeLookup id c.store with
  | some r => ((r.entry, none), { c with store := storeTouch id now c.store })
  | none => ((default, some Error.ErrNoCacheEntry), c)

/-- `Set` of `local.go`: the returned error and the cache afterwards. -/
def Set (c : LocalCache K V) (now : Int) (id : K) (entry : V) :
    Option Error × LocalCache K V :=
  (none, { c with
    store := storeAssign id { entry := entry, accessAt := now, writeAt := now } c.store })

/-- `Delete` of `local.go`. -/
def Delete (c : LocalCache K V) (id : K) : Except Fault (LocalCache K V) :=
  c.unsafeEvict id (storeLookup id c.store)

/-- `AsMap` of `local.go`. -/
def AsMap (c : LocalCache K V) : List (K × V) :=
  c.store.foldl (fun m e => (e.1, e.2.entry) :: m.filter (fun p => !decide (p.1 = e.1))) []

end LocalCache

/-- The function type `Loader[K, V]` of `cache.go` (a non-nil one): the pair
`(entry, err)` it returns for a key. -/
abbrev Loader (K V : Type) := K → V × Option Error

/-- Which loader a call went to: the cache's own `load` field, or the loader
at an index of the variadic argument of `GetOrLoad`. -/
inductive LoaderId where
  | default
  | arg (i : Nat)
  deriving DecidableEq, Repr

/-- The struct `loadingCache[K, V]` of `loading.go`: the embedded
`*LocalCache`, the `load` field (`none` when nil), and the ghost trace of
loader calls, oldest first. -/
structure loadingCache (K V : Type) where
  LocalCache : LocalCache K V
  load : Option (Loader K V)
  loadCalls : List (LoaderId × K)

namespace loadingCache

variable {K V : Type} [DecidableEq K]

/-- The `range loaders` loop of `GetOrLoad`, from index `i` on, with the
current values of the named results `entry` and `err`. -/
def tryLoaders (c : loadingCache K V) (now : Int) (id : K) :
    List (Loader K V) → Nat → V × Option Error → (V × Option Error) × loadingCache K V
  | [], _, res => (res, c)
  | load :: rest, i, _ =>
    let c1 := { c with loadCalls := c.loadCalls ++ [(LoaderId.arg i, id)] }
    match load id with
    | (entry, none) =>
      let r := c1.LocalCache.Set now id entry
      ((entry, r.1), { c1 with LocalCache := r.2 })
    | (entry, some err) => tryLoaders c1 now id rest (i + 1) (entry, some err)

/-- `GetOrLoad` of `loading.go`. -/
def GetOrLoad [Inhabited V] (c : loadingCache K V) (now : Int) (id : K)
    (loaders : List (Loader K V)) : (V × Option Error) × loadingCache K V :=
  match storeLookup id c.LocalCache.store with
  | some r =>
    ((r.entry, none),
      { c with LocalCache := { c.LocalCache with store := storeTouch id now c.LocalCache.store } })
  | none => tryLoaders c now id loaders 0 (default, none)

/-- `Get` of `loading.go`. -/
def Get [Inhabited V] (c : loadingCache K V) (now : Int) (id : K) :
    (V × Option Error) × loadingCache K V :=
  match storeLookup id c.LocalCache.store with
  | some r =>
    ((r.entry, none),
      { c with LocalCache := { c.LocalCache with store := storeTouch id now c.LocalCache.store } })
  | none =>
    match c.load with
    | some load =>
      let c1 := { c with loadCalls := c.loadCalls ++ [(LoaderId.default, id)] }
      match load id with
      | (entry, none) =>
        let r := c1.LocalCache.Set now id entry
        ((entry, r.1), { c1 with LocalCache := r.2 })
      | (entry, some err) => ((entry, some err), c1)
    | none => ((default, some Error.ErrNoCacheEntry), c)

/-- `Refresh` of `loading.go`; calling the nil `load` is a fault. -/
def Refresh (c : loadingCache K V) (now : Int) (id : K) :
    Except Fault (Option Error × loadingCache K V) :=
  match storeLookup id c.LocalCache.store with
  | some _ =>
    match c.load with
    | none => Except.error Fault.nilDereference
    | some load =>
      let c1 := { c with loadCalls := c.loadCalls ++ [(LoaderId.default, id)] }
      match load id with
      | (entry, none) =>
        let r := c1.LocalCache.Set now id entry
        pure (r.1, { c1 with LocalCache := r.2 })
      | (_, some err) => pure (some err, c1)
  | none => pure (some Error.ErrNoCacheEntry, c)

end loadingCache

/-- The struct literal of `NewLocalCache` before the options are applied,
over an empty ghost trace. -/
def NewLocalCache (K V : Type) : LocalCache K V :=
  { store := [], accessExpire := none, writeExpire := none,
    tickInterval := 1000000000, onEvict := false, onEvictCalls := [] }

/-- `NewLoadingCache` of `loading.go` (no options). -/
def NewLoadingCache (K V : Type) : loadingCache K V :=
  { LocalCache := NewLocalCache K V, load := none, loadCalls := [] }

/-- `NewLoadingCacheWithLoader` of `loading.go` (no options). -/
def NewLoadingCacheWithLoader (K V : Type) (load : Loader K V) : loadingCache K V :=
  { LocalCache := NewLocalCache K V, load := some load, loadCalls := [] }

/-! ## Derived states and the expiry predicates -/

section Derived

variable {K V : Type} [DecidableEq K]

/-- Whether a deadline `t + d` lies strictly before `now`, for an optional
duration `d` (no deadline when the policy is not configured). -/
def expiredBy (d : Option Int) (t now : Int) : Bool :=
  match d with
  | some d => decide (t + d < now)
  | none => false

/-- A record is idle-expired: idle-expiration is configured and
`lastAccess + idleExpiration` is strictly before `now`. -/
def idleExpired {K V : Type} (c : LocalCache K V) (now : Int) (r : record V) : Bool :=
  expiredBy c.accessExpire r.accessAt now

/-- A record is age-expired: age-expiration is configured and
`lastWrite + ageExpiration` is strictly before `now`. -/
def ageExpired {K V : Type} (c : LocalCache K V) (now : Int) (r : record V) : Bool :=
  expiredBy c.writeExpire r.writeAt now

/-- A record is expired when it is idle-expired or age-expired. -/
def expired {K V : Type} (c : LocalCache K V) (now : Int) (r : record V) : Bool :=
  idleExpired c now r || ageExpired c now r

/-- The cache after `unsafeEvict` ran for the entry `(id, v)`. -/
def evictedState (c : LocalCache K V) (id : K) (v : V) : LocalCache K V :=
  { c with
    store := storeDelete id c.store
    onEvictCalls := if c.onEvict then c.onEvictCalls ++ [(id, v)] else c.onEvictCalls }

/-- The cache after a sweep at `tick`: the records that are not expired stay,
in place, and the callback (when configured) has been called for each expired
record, in the order the sweep visited them. -/
def sweptState (c : LocalCache K V) (tick : Int) : LocalCache K V :=
  { c with
    store := c.store.filter (fun e => !expired c tick e.2)
    onEvictCalls :=
      if c.onEvict then
        c.onEvictCalls ++
          (c.store.filter (fun e => expired c tick e.2)).map (fun e => (e.1, e.2.entry))
      else c.onEvictCalls }

/-- Map index `m[id]` on the map `map[K]V` that `AsMap` returns. -/
def mapLookup {W : Type} (id : K) : List (K × W) → Option W
  | [] => none
  | p :: rest => if p.1 = id then some p.2 else mapLookup id rest

/-- A client that calls `Get(id)` once at each of the given times: the results
returned, in order, and the cache afterwards. -/
def getsAt [Inhabited V] (c : LocalCache K V) (id : K) :
    List Int → List (V × Option Error) × LocalCache K V
  | [] => ([], c)
  | t :: ts =>
    let r := c.Get t id
    let rest := getsAt r.2 id ts
    (r.1 :: rest.1, rest.2)

end Derived

/-! ## Map objects and references

A Go map value is a reference to a map object. To say which object an
operation writes, map objects live on a heap and are named by their address;
`c.store` and the map `AsMap` returns are such addresses. -/

section HeapModel

variable {K V : Type} [DecidableEq K]

/-- A Go map object: a `map[K]*record[V]` (the object the `store` field of a
cache refers to, with its records) or a `map[K]V` (as `AsMap` makes). -/
inductive MapObject (K V : Type) where
  | records (s : List (K × record V))
  | values (m : List (K × V))

/-- The heap of map objects; the address of an object is its index. -/
abbrev Heap (K V : Type) := List (MapObject K V)

/-- The map object at address `a`, if one is allocated there. -/
def heapRead (h : Heap K V) (a : Nat) : Option (MapObject K V) :=
  h[a]?

/-- Builtin `make(map[K]V, n)`: a new empty map object at a fresh address (the
capacity hint `n` does not show in the contents). The heap afterwards and the
address of the new object. -/
def heapMake (h : Heap K V) : Heap K V × Nat :=
  (h ++ [MapObject.values []], h.length)

/-- Map assignment `m[id] = v` through the reference `m` to a `map[K]V`. (Go's
types exclude the case where `m` refers to anything else.) -/
def heapAssign (h : Heap K V) (m : Nat) (id : K) (v : V) : Heap K V :=
  match heapRead h m with
  | some (MapObject.values vs) =>
    h.set m (MapObject.values ((id, v) :: vs.filter (fun p => !decide (p.1 = id))))
  | _ => h

/-- `AsMap` of `local.go` with the map objects on the heap, for a cache whose
`store` field is the reference `a`: `m := make(...)`, then `m[uid] = cu.entry`
for every entry of `c.store`, then `return m`. The heap afterwards and the
reference returned. -/
def heapAsMap (h : Heap K V) (a : Nat) : Option (Heap K V × Nat) :=
  match heapRead h a with
  | some (MapObject.records s) =>
    let r := heapMake h
    some (s.foldl (fun h1 e => heapAssign h1 r.2 e.1 e.2.entry) r.1, r.2)
  | _ => none

/-- The write of `Set` of `local.go` with the map objects on the heap:
`c.store[id] = &record{...}` through the reference `a`. -/
def heapSet (h : Heap K V) (a : Nat) (now : Int) (id : K) (entry : V) : Heap K V :=
  match heapRead h a with
  | some (MapObject.records s) =>
    h.set a (MapObject.records
      (storeAssign id { entry := entry, accessAt := now, writeAt := now } s))
  | _ => h

/-- The write of `Delete` of `local.go` (made in `unsafeEvict`) with the map
objects on the heap: `delete(c.store, id)` through the reference `a`. -/
def heapDelete (h : Heap K V) (a : Nat) (id : K) : Heap K V :=
  match heapRead h a with
  | some (MapObject.records s) => h.set a (MapObject.records (storeDelete id s))
  | _ => h

end HeapModel

/-! ## Concrete inputs -/

/-- A cache with idle-expiration `10`, age-expiration `20`, an eviction
callback, and four records. At time `100`: record `1` has both deadlines
elapsed, record `2` only the age deadline, record `4` only the idle deadline,
and both deadlines of record `3` are at or after `100`. -/
def exampleCache : LocalCache Nat Nat :=
  { store := [(1, ⟨11, 0, 0⟩), (2, ⟨22, 95, 50⟩), (3, ⟨33, 90, 90⟩), (4, ⟨44, 89, 95⟩)]
    accessExpire := some 10
    writeExpire := some 20
    tickInterval := 1000000000
    onEvict := true
    onEvictCalls := [] }

/-- A cache with idle-expiration `10` only, holding one record under key `1`. -/
def idleCache : LocalCache Nat Nat :=
  { store := [(1, ⟨11, 0, 0⟩)]
    accessExpire := some 10
    writeExpire := none
    tickInterval := 1000000000
    onEvict := false
    onEvictCalls := [] }

/-- A cache with age-expiration `10` only, and no record. -/
def ageCache : LocalCache Nat Nat :=
  { store := []
    accessExpire := none
    writeExpire := some 10
    tickInterval := 1000000000
    onEvict := false
    onEvictCalls := [] }

/-- A loader that succeeds with the successor of the key. -/
def succLoader : Loader Nat Nat := fun k => (k + 1, none)

/-- A loader that fails with the error of tag `1`. -/
def failLoader : Loader Nat Nat := fun _ => (3, some (Error.other 1))

/-- A loader that fails with the error of tag `2`. -/
def failLoader2 : Loader Nat Nat := fun _ => (4, some (Error.other 2))

/-- A loading cache whose default loader fails, holding `idleCache`. -/
def failingCache : loadingCache Nat Nat :=
  { LocalCache := idleCache, load := some failLoader, loadCalls := [] }

/-- A loading cache built without a default loader (as `NewLoadingCache`
builds it), holding `idleCache`: key `1` is present. -/
def noLoaderCache : loadingCache Nat Nat :=
  { LocalCache := idleCache, load := none, loadCalls := [] }

/-- The cache `NewLocalCache(WithOnEvict(f))` builds: empty, with a callback. -/
def callbackCache : LocalCache Nat Nat :=
  { NewLocalCache Nat Nat with onEvict := true }

/-- The loading cache `NewLoadingCache()` builds, after `Set(1, 11)` at time
`0`: no default loader, key `1` present. -/
def freshWithKey : loadingCache Nat Nat :=
  { NewLoadingCache Nat Nat with
    LocalCache := ((NewLoadingCache Nat Nat).LocalCache.Set 0 1 11).2 }

/-- A loading cache with `succLoader` and no age-expiration, holding
`idleCache`: key `1` is present. -/
def noAgeCache : loadingCache Nat Nat :=
  { LocalCache := idleCache, load := some succLoader, loadCalls := [] }

/-- A loading cache with `succLoader`, idle-expiration `1`, age-expiration
`10`, and one record under key `1`. -/
def refreshCache : loadingCache Nat Nat :=
  { LocalCache :=
      { store := [(1, ⟨11, 0, 0⟩)]
        accessExpire := some 1
        writeExpire := some 10
        tickInterval := 1000000000
        onEvict := false
        onEvictCalls := [] }
    load := some succLoader
    loadCalls := [] }

/-! ## The map operations -/

section Store

variable {K V : Type} [DecidableEq K]

theorem storeLookup_cons (id : K) (e : K × record V) (rest : List (K × record V)) :
    storeLookup id (e :: rest) = if e.1 = id then some e.2 else storeLookup id rest := rfl

theorem storeDelete_cons (id : K) (e : K × record V) (rest : List (K × record V)) :
    storeDelete id (e :: rest)
      = if e.1 = id then storeDelete id rest else e :: storeDelete id rest := by
  by_cases h : e.1 = id <;> simp [storeDelete, List.filter_cons, h]

theorem storeTouch_cons (id : K) (now : Int) (e : K × record V)
    (rest : List (K × record V)) :
    storeTouch id now (e :: rest)
      = if e.1 = id then (e.1, { e.2 with accessAt := now }) :: rest
        else e :: storeTouch id now rest := rfl

theorem storeLookup_storeDelete_self (id : K) (s : List (K × record V)) :
    storeLookup id (storeDelete id s) = none := by
  induction s with
  | nil => rfl
  | cons e rest ih =>
    rw [storeDelete_cons]
    split
    · exact ih
    · rename_i h
      rw [storeLookup_cons, if_neg h]
      exact ih

theorem storeLookup_storeDelete_ne {id k : K} (h : k ≠ id) (s : List (K × record V)) :
    storeLookup k (storeDelete id s) = storeLookup k s := by
  induction s with
  | nil => rfl
  | cons e rest ih =>
    rw [storeDelete_cons, storeLookup_cons]
    by_cases h1 : e.1 = id
    · have h2 : e.1 ≠ k := fun h3 => h (h3 ▸ h1)
      rw [if_pos h1, if_neg h2]
      exact ih
    · rw [if_neg h1, storeLookup_cons, ih]

theorem storeLookup_storeAssign_self (id : K) (r : record V) (s : List (K × record V)) :
    storeLookup id (storeAssign id r s) = some r := by
  simp [storeAssign, storeLookup]

theorem storeLookup_storeAssign_ne {id k : K} (h : k ≠ id) (r : record V)
    (s : List (K × record V)) :
    storeLookup k (storeAssign id r s) = storeLookup k s := by
  have h1 : id ≠ k := fun h2 => h h2.symm
  simp [storeAssign, storeLookup, h1, storeLookup_storeDelete_ne h]

theorem storeLookup_storeTouch_self {id : K} (now : Int) {s : List (K × record V)}
    {r : record V} (h : storeLookup id s = some r) :
    storeLookup id (storeTouch id now s) = some { r with accessAt := now } := by
  induction s with
  | nil => simp [storeLookup] at h
  | cons e rest ih =>
    rw [storeLookup_cons] at h
    rw [storeTouch_cons]
    by_cases h1 : e.1 = id
    · rw [if_pos h1] at h
      rw [if_pos h1, storeLookup_cons, if_pos h1]
      cases h
      rfl
    · rw [if_neg h1] at h
      rw [if_neg h1, storeLookup_cons, if_neg h1]
      exact ih h

theorem storeLookup_storeTouch_ne {id k : K} (h : k ≠ id) (now : Int)
    (s : List (K × record V)) :
    storeLookup k (storeTouch id now s) = storeLookup k s := by
  induction s with
  | nil => rfl
  | cons e rest ih =>
    rw [storeTouch_cons, storeLookup_cons]
    by_cases h1 : e.1 = id
    · have h2 : e.1 ≠ k := fun h3 => h (h3 ▸ h1)
      rw [if_pos h1, if_neg h2, storeLookup_cons, if_neg h2]
    · rw [if_neg h1, storeLookup_cons, ih]

theorem storeTouch_keys (id : K) (now : Int) (s : List (K × record V)) :
    (storeTouch id now s).map Prod.fst = s.map Prod.fst := by
  induction s with
  | nil => rfl
  | cons e rest ih =>
    by_cases h1 : e.1 = id
    · simp [storeTouch, h1]
    · simpa [storeTouch, h1] using ih

theorem storeLookup_eq_none_iff (id : K) (s : List (K × record V)) :
    storeLookup id s = none ↔ id ∉ s.map Prod.fst := by
  induction s with
  | nil => simp [storeLookup]
  | cons e rest ih =>
    by_cases h1 : e.1 = id
    · simp [storeLookup, h1]
    · have h2 : ¬ id = e.1 := fun h3 => h1 h3.symm
      simpa [storeLookup, h1, h2] using ih

theorem storeDelete_of_not_mem {id : K} {s : List (K × record V)}
    (h : id ∉ s.map Prod.fst) : storeDelete id s = s := by
  unfold storeDelete
  rw [List.filter_eq_self]
  intro e he
  have h1 : e.1 ≠ id := fun h2 => h (h2 ▸ List.mem_map_of_mem Prod.fst he)
  simp [h1]

theorem storeWF_storeDelete (id : K) {s : List (K × record V)} (h : storeWF s) :
    storeWF (storeDelete id s) := by
  unfold storeWF storeDelete at *
  exact (List.Nodup.sublist ((List.filter_sublist s).map Prod.fst) h)

theorem not_mem_keys_storeDelete (id : K) (s : List (K × record V)) :
    id ∉ (storeDelete id s).map Prod.fst := by
  rw [← storeLookup_eq_none_iff]
  exact storeLookup_storeDelete_self id s

theorem storeWF_storeAssign (id : K) (r : record V) {s : List (K × record V)}
    (h : storeWF s) : storeWF (storeAssign id r s) := by
  have h1 := storeWF_storeDelete id h
  have h2 := not_mem_keys_storeDelete id s
  unfold storeWF storeAssign at *
  simpa using And.intro (by simpa using h2) h1

theorem storeWF_storeTouch (id : K) (now : Int) {s : List (K × record V)}
    (h : storeWF s) : storeWF (storeTouch id now s) := by
  unfold storeWF at *
  rw [storeTouch_keys]
  exact h

end Store

/-! ## Sublists of a map -/

section WellFormed

variable {K V : Type}

theorem storeWF_middle {pre l : List (K × record V)} {e : K × record V}
    (h : storeWF (pre ++ e :: l)) : storeWF (pre ++ l) := by
  have h2 : (pre.map Prod.fst ++ e.1 :: l.map Prod.fst).Nodup := by
    simpa [storeWF] using h
  have h1 := (List.nodup_cons.mp (List.nodup_middle.mp h2)).2
  simpa [storeWF] using h1

theorem storeWF_filter (p : K × record V → Bool) {s : List (K × record V)}
    (h : storeWF s) : storeWF (s.filter p) := by
  unfold storeWF at *
  exact List.Nodup.sublist ((List.filter_sublist s).map Prod.fst) h

theorem heapRead_lt {h : Heap K V} {a : Nat} {o : MapObject K V}
    (ha : heapRead h a = some o) : a < h.length := by
  by_contra hc
  have h1 : heapRead h a = none := List.getElem?_eq_none (Nat.le_of_not_lt hc)
  rw [h1] at ha
  cases ha

theorem heapRead_set_self {h : Heap K V} {a : Nat} (o : MapObject K V)
    (ha : a < h.length) : heapRead (h.set a o) a = some o := by
  unfold heapRead
  rw [List.getElem?_set, if_pos rfl, if_pos ha]

theorem heapRead_set_ne {h : Heap K V} {a b : Nat} (o : MapObject K V) (hab : a ≠ b) :
    heapRead (h.set a o) b = heapRead h b := by
  unfold heapRead
  rw [List.getElem?_set, if_neg hab]

end WellFormed

/-! ## Eviction and the sweep -/

section Sweep

variable {K V : Type} [DecidableEq K]

theorem unsafeEvict_some (c : LocalCache K V) (id : K) (r : record V) :
    c.unsafeEvict id (some r) = Except.ok (evictedState c id r.entry) := by
  cases h : c.onEvict <;> simp [LocalCache.unsafeEvict, evictedState, h] <;> rfl

theorem cleanupEntry_eq (tick : Int) (c : LocalCache K V) (e : K × record V) :
    LocalCache.cleanupEntry tick c e
      = Except.ok (if expired c tick e.2 then evictedState c e.1 e.2.entry else c) := by
  unfold LocalCache.cleanupEntry LocalCache.unsafeAccessExpire LocalCache.unsafeWriteExpire
  cases ha : c.accessExpire with
  | none =>
    cases hw : c.writeExpire with
    | none => simp [expired, idleExpired, ageExpired, expiredBy, ha, hw, pure, Except.pure, bind, Except.bind]
    | some a =>
      by_cases h2 : e.2.writeAt + a < tick <;>
        simp [expired, idleExpired, ageExpired, expiredBy, ha, hw, h2, unsafeEvict_some,
          pure, Except.pure, bind, Except.bind]
  | some d =>
    by_cases h1 : e.2.accessAt + d < tick
    · simp [expired, idleExpired, ageExpired, expiredBy, ha, h1, unsafeEvict_some,
        pure, Except.pure, bind, Except.bind]
    · cases hw : c.writeExpire with
      | none =>
        simp [expired, idleExpired, ageExpired, expiredBy, ha, hw, h1,
          pure, Except.pure, bind, Except.bind]
      | some a =>
        by_cases h2 : e.2.writeAt + a < tick <;>
          simp [expired, idleExpired, ageExpired, expiredBy, ha, hw, h1, h2, unsafeEvict_some,
            pure, Except.pure, bind, Except.bind]

theorem storeDelete_middle {pre l : List (K × record V)} {e : K × record V}
    (h : storeWF (pre ++ e :: l)) : storeDelete e.1 (pre ++ e :: l) = pre ++ l := by
  have h1 : (e.1 :: (pre ++ l).map Prod.fst).Nodup := by
    have h2 : (pre.map Prod.fst ++ e.1 :: l.map Prod.fst).Nodup := by
      simpa [storeWF] using h
    simpa using List.nodup_middle.mp h2
  have h3 : e.1 ∉ (pre ++ l).map Prod.fst := (List.nodup_cons.mp h1).1
  have h4 : storeDelete e.1 (pre ++ e :: l) = storeDelete e.1 (pre ++ l) := by
    simp [storeDelete, List.filter_append, List.filter_cons]
  rw [h4, storeDelete_of_not_mem h3]

theorem foldlM_cleanupEntry (tick : Int) (ae we : Option Int) (ti : Int) (oe : Bool) :
    ∀ (l pre : List (K × record V)) (calls : List (K × V)), storeWF (pre ++ l) →
      l.foldlM (LocalCache.cleanupEntry tick)
          ({ store := pre ++ l, accessExpire := ae, writeExpire := we, tickInterval := ti,
             onEvict := oe, onEvictCalls := calls } : LocalCache K V)
        = Except.ok
          { store := pre ++ l.filter
              (fun e => !(expiredBy ae e.2.accessAt tick || expiredBy we e.2.writeAt tick))
            accessExpire := ae, writeExpire := we, tickInterval := ti, onEvict := oe
            onEvictCalls :=
              if oe then
                calls ++ (l.filter
                  (fun e => expiredBy ae e.2.accessAt tick || expiredBy we e.2.writeAt tick)).map
                    (fun e => (e.1, e.2.entry))
              else calls } := by
  intro l
  induction l with
  | nil =>
    intro pre calls _
    cases oe <;> simp [List.foldlM, pure, Except.pure]
  | cons e l ih =>
    intro pre calls hwf
    rw [List.foldlM_cons, cleanupEntry_eq]
    simp only [expired, idleExpired, ageExpired, evictedState, bind, Except.bind]
    by_cases hx : (expiredBy ae e.2.accessAt tick || expiredBy we e.2.writeAt tick) = true
    · rw [if_pos hx, storeDelete_middle hwf, ih pre _ (storeWF_middle hwf)]
      have hf1 : (e :: l).filter
            (fun e => !(expiredBy ae e.2.accessAt tick || expiredBy we e.2.writeAt tick))
          = l.filter
            (fun e => !(expiredBy ae e.2.accessAt tick || expiredBy we e.2.writeAt tick)) := by
        rw [List.filter_cons, hx]
        rfl
      have hf2 : (e :: l).filter
            (fun e => expiredBy ae e.2.accessAt tick || expiredBy we e.2.writeAt tick)
          = e :: l.filter
            (fun e => expiredBy ae e.2.accessAt tick || expiredBy we e.2.writeAt tick) := by
        rw [List.filter_cons, hx]
        rfl
      rw [hf1, hf2]
      cases oe <;> simp
    · rw [if_neg hx]
      have hx1 := Bool.eq_false_iff.mpr hx
      have h2 : pre ++ e :: l = (pre ++ [e]) ++ l := by simp
      rw [h2, ih (pre ++ [e]) calls (h2 ▸ hwf)]
      have hf1 : (e :: l).filter
            (fun e => !(expiredBy ae e.2.accessAt tick || expiredBy we e.2.writeAt tick))
          = e :: l.filter
            (fun e => !(expiredBy ae e.2.accessAt tick || expiredBy we e.2.writeAt tick)) := by
        rw [List.filter_cons, hx1]
        rfl
      have hf2 : (e :: l).filter
            (fun e => expiredBy ae e.2.accessAt tick || expiredBy we e.2.writeAt tick)
          = l.filter
            (fun e => expiredBy ae e.2.accessAt tick || expiredBy we e.2.writeAt tick) := by
        rw [List.filter_cons, hx1]
        rfl
      rw [hf1, hf2]
      cases oe <;> simp

theorem cleanup_eq (c : LocalCache K V) (tick : Int) (h : storeWF c.store) :
    c.cleanup tick = Except.ok (sweptState c tick) := by
  obtain ⟨s, ae, we, ti, oe, calls⟩ := c
  have h1 := foldlM_cleanupEntry tick ae we ti oe s [] calls (by simpa using h)
  simpa [LocalCache.cleanup, sweptState, expired, idleExpired, ageExpired] using h1

theorem storeLookup_of_mem {s : List (K × record V)} (h : storeWF s)
    {e : K × record V} (he : e ∈ s) : storeLookup e.1 s = some e.2 := by
  induction s with
  | nil => simp at he
  | cons a rest ih =>
    have h1 : (a.1 :: rest.map Prod.fst).Nodup := by simpa [storeWF] using h
    obtain ⟨h2, h3⟩ := List.nodup_cons.mp h1
    rw [storeLookup_cons]
    rcases List.mem_cons.mp he with rfl | hmem
    · rw [if_pos rfl]
    · have h4 : a.1 ≠ e.1 := fun h5 => h2 (h5 ▸ List.mem_map_of_mem Prod.fst hmem)
      rw [if_neg h4]
      exact ih h3 hmem

theorem mem_of_storeLookup {s : List (K × record V)} {k : K} {r : record V}
    (h : storeLookup k s = some r) : (k, r) ∈ s := by
  induction s with
  | nil => simp [storeLookup] at h
  | cons a rest ih =>
    rw [storeLookup_cons] at h
    by_cases h1 : a.1 = k
    · rw [if_pos h1] at h
      cases h
      subst h1
      exact List.mem_cons_self _ _
    · rw [if_neg h1] at h
      exact List.mem_cons_of_mem _ (ih h)

theorem storeLookup_filter {s : List (K × record V)} (h : storeWF s)
    (p : K × record V → Bool) (k : K) :
    storeLookup k (s.filter p)
      = (storeLookup k s).bind (fun r => if p (k, r) then some r else none) := by
  cases hl : storeLookup k s with
  | none =>
    have h1 : k ∉ (s.filter p).map Prod.fst := fun h2 =>
      (storeLookup_eq_none_iff k s).mp hl
        (List.Sublist.subset ((List.filter_sublist s).map Prod.fst) h2)
    simpa using (storeLookup_eq_none_iff k _).mpr h1
  | some r =>
    have hm := mem_of_storeLookup hl
    by_cases hp : p (k, r) = true
    · have h1 : (k, r) ∈ s.filter p := List.mem_filter.mpr ⟨hm, hp⟩
      simpa [hp] using storeLookup_of_mem (storeWF_filter p h) h1
    · have h1 : k ∉ (s.filter p).map Prod.fst := by
        intro h2
        obtain ⟨e, he, hk⟩ := List.mem_map.mp h2
        obtain ⟨hes, hpe⟩ := List.mem_filter.mp he
        have h3 := storeLookup_of_mem h hes
        rw [hk, hl] at h3
        have h4 : e = (k, r) := by
          cases e
          simp at hk h3
          simp [hk, h3]
        exact hp (h4 ▸ hpe)
      simpa [hp] using (storeLookup_eq_none_iff k _).mpr h1

theorem storeLookup_sweptState (c : LocalCache K V) (now : Int) (hwf : storeWF c.store)
    (k : K) :
    storeLookup k (sweptState c now).store
      = (storeLookup k c.store).bind
          (fun r => if idleExpired c now r || ageExpired c now r then none else some r) := by
  simp only [sweptState]
  rw [storeLookup_filter hwf]
  cases storeLookup k c.store with
  | none => rfl
  | some r =>
    simp only [Option.bind, expired]
    by_cases hx : (idleExpired c now r || ageExpired c now r) = true
    · rw [if_pos hx, if_neg (by rw [hx]; decide)]
    · rw [if_neg hx, if_pos (by rw [Bool.eq_false_iff.mpr hx]; rfl)]

theorem get_of_absent [Inhabited V] (c : LocalCache K V) (now : Int) (k : K)
    (h : storeLookup k c.store = none) :
    c.Get now k = ((default, some Error.ErrNoCacheEntry), c) := by
  simp [LocalCache.Get, h]

theorem get_of_present [Inhabited V] (c : LocalCache K V) (now : Int) (k : K) (r : record V)
    (h : storeLookup k c.store = some r) :
    c.Get now k = ((r.entry, none), { c with store := storeTouch k now c.store }) := by
  simp [LocalCache.Get, h]

end Sweep

theorem storeWF_sweptState {K V : Type} (c : LocalCache K V) (now : Int) (hwf : storeWF c.store) :
    storeWF (sweptState c now).store :=
  storeWF_filter _ hwf

/-! ## Set, Get and Delete -/

section Basic

variable {K V : Type} [DecidableEq K]

/-- C1: for every store state, key `k` and value `v`, `Set(k, v)` returns no
error, and a `Get(k)` performed directly afterwards returns exactly `v` with no
error. -/
theorem C1_set_then_get [Inhabited V] (c : LocalCache K V) (t t' : Int) (k : K) (v : V) :
    (c.Set t k v).1 = none ∧ ((c.Set t k v).2.Get t' k).1 = (v, none) := by
  refine ⟨rfl, ?_⟩
  simp [LocalCache.Get, LocalCache.Set, storeLookup_storeAssign_self]

/-- C2: for every store state and every key `k` that is not in the map,
`Get(k)` returns the zero value with `ErrNoCacheEntry` and leaves the store
unchanged; so does the `Get` of a loading cache whose `load` field is nil
(it calls no loader either). -/
theorem C2_get_absent [Inhabited V] (c : LocalCache K V) (now : Int) (k : K)
    (h : storeLookup k c.store = none) :
    c.Get now k = ((default, some Error.ErrNoCacheEntry), c) ∧
    ∀ calls : List (LoaderId × K),
      loadingCache.Get { LocalCache := c, load := none, loadCalls := calls } now k
        = ((default, some Error.ErrNoCacheEntry),
            { LocalCache := c, load := none, loadCalls := calls }) := by
  constructor
  · simp [LocalCache.Get, h]
  · intro calls
    simp [loadingCache.Get, h]

/-- Witness of C2: key `2` is absent from `idleCache`, which holds key `1`. -/
theorem C2_get_absent_witness :
    storeLookup 2 idleCache.store = none ∧
      idleCache.Get 5 2 = ((0, some Error.ErrNoCacheEntry), idleCache) ∧
      (loadingCache.Get { LocalCache := idleCache, load := none, loadCalls := [] } 5 2).1
        = (0, some Error.ErrNoCacheEntry) :=
  ⟨by decide, (C2_get_absent idleCache 5 2 (by decide)).1,
    congrArg Prod.fst ((C2_get_absent idleCache 5 2 (by decide)).2 [])⟩

/-- C3: after `Set(k, v)` followed by `Delete(k)`, `Delete` completes, `Get(k)`
returns `ErrNoCacheEntry`, every other key has the record it had before, and
the eviction callback, when configured, was called by `Delete` exactly once,
with `(k, v)` (and not at all when it is not configured). -/
theorem C3_set_delete_get [Inhabited V] (c : LocalCache K V) (t t' : Int) (k : K) (v : V) :
    ∃ c2 : LocalCache K V,
      (c.Set t k v).2.Delete k = Except.ok c2 ∧
      c2.Get t' k = ((default, some Error.ErrNoCacheEntry), c2) ∧
      (∀ k' : K, k' ≠ k → storeLookup k' c2.store = storeLookup k' c.store) ∧
      c2.onEvictCalls
        = (if c.onEvict then c.onEvictCalls ++ [(k, v)] else c.onEvictCalls) := by
  refine ⟨evictedState (c.Set t k v).2 k v, ?_, ?_, ?_, ?_⟩
  · simp only [LocalCache.Delete, LocalCache.Set, storeLookup_storeAssign_self]
    exact unsafeEvict_some _ _ _
  · simp [LocalCache.Get, evictedState, storeLookup_storeDelete_self]
  · intro k' hk
    simp only [evictedState, LocalCache.Set]
    rw [storeLookup_storeDelete_ne hk, storeLookup_storeAssign_ne hk]
  · simp [evictedState, LocalCache.Set]

end Basic

/-! ## Cleanup -/

section CleanupClaims

variable {K V : Type} [DecidableEq K]

theorem filter_key_map_filter_of_not_mem (p : K × record V → Bool) (k : K)
    {s : List (K × record V)} (h : k ∉ s.map Prod.fst) :
    ((s.filter p).map (fun e => (e.1, e.2.entry))).filter (fun q => decide (q.1 = k)) = [] := by
  rw [List.filter_eq_nil_iff]
  intro q hq
  obtain ⟨e, he, rfl⟩ := List.mem_map.mp hq
  have h1 : e.1 ≠ k := fun h2 =>
    h (h2 ▸ List.mem_map_of_mem Prod.fst (List.mem_filter.mp he).1)
  simpa using h1

theorem filter_key_map_filter (p : K × record V → Bool) (k : K)
    {s : List (K × record V)} (h : storeWF s) :
    ((s.filter p).map (fun e => (e.1, e.2.entry))).filter (fun q => decide (q.1 = k))
      = match storeLookup k s with
        | some r => if p (k, r) then [(k, r.entry)] else []
        | none => [] := by
  induction s with
  | nil => rfl
  | cons e rest ih =>
    have h1 : (e.1 :: rest.map Prod.fst).Nodup := by simpa [storeWF] using h
    obtain ⟨h2, h3⟩ := List.nodup_cons.mp h1
    rw [storeLookup_cons]
    by_cases hk : e.1 = k
    · rw [if_pos hk]
      have h4 : k ∉ rest.map Prod.fst := hk ▸ h2
      have h5 := filter_key_map_filter_of_not_mem p k h4
      obtain ⟨a, r⟩ := e
      simp only at hk
      subst hk
      by_cases hp : p (a, r) = true
      · simp only [List.filter_cons, hp, if_true, List.map_cons, decide_True]
        rw [h5]
      · simp only [List.filter_cons, hp]
        simpa using h5
    · rw [if_neg hk, ← ih h3]
      by_cases hp : p e = true
      · simp [List.filter_cons, hp, hk]
      · simp [List.filter_cons, hp]

/-- C4: after `Cleanup(now)` the map holds exactly the records of the prior
state that are neither idle-expired nor age-expired (strict comparison of the
deadline with `now`), each with its value and both timestamps unchanged; a
record none of whose configured deadlines lies strictly before `now` (so also
one whose deadline equals `now`) is kept, and with neither policy configured
nothing is removed. -/
theorem C4_cleanup_store (c : LocalCache K V) (now : Int) (hwf : storeWF c.store) :
    ∃ c2 : LocalCache K V,
      c.Cleanup now = Except.ok c2 ∧
      c2.store = c.store.filter (fun e => !(idleExpired c now e.2 || ageExpired c now e.2)) ∧
      (∀ k : K, storeLookup k c2.store
        = (storeLookup k c.store).bind
            (fun r => if idleExpired c now r || ageExpired c now r then none else some r)) ∧
      (∀ (k : K) (r : record V), storeLookup k c.store = some r →
        (∀ d, c.accessExpire = some d → now ≤ r.accessAt + d) →
        (∀ a, c.writeExpire = some a → now ≤ r.writeAt + a) →
        storeLookup k c2.store = some r) ∧
      (c.accessExpire = none → c.writeExpire = none → c2.store = c.store) := by
  have hlook := storeLookup_sweptState c now hwf
  refine ⟨sweptState c now, cleanup_eq c now hwf, rfl, hlook, ?_, ?_⟩
  · intro k r hk hd ha
    rw [hlook k, hk]
    have h1 : idleExpired c now r = false := by
      unfold idleExpired expiredBy
      cases hx : c.accessExpire with
      | none => rfl
      | some d => simpa using hd d hx
    have h2 : ageExpired c now r = false := by
      unfold ageExpired expiredBy
      cases hx : c.writeExpire with
      | none => rfl
      | some a => simpa using ha a hx
    simp [h1, h2]
  · intro h1 h2
    simp [sweptState, expired, idleExpired, ageExpired, expiredBy, h1, h2]

/-- Witness of C4: the sweep of `exampleCache` at time `100` keeps exactly
record `3`, whose idle deadline `90 + 10` equals `100`. -/
theorem C4_cleanup_store_witness :
    storeWF exampleCache.store ∧
      ∃ c2 : LocalCache Nat Nat,
        exampleCache.Cleanup 100 = Except.ok c2 ∧ c2.store = [(3, ⟨33, 90, 90⟩)] :=
  ⟨by decide,
    (C4_cleanup_store exampleCache 100 (by decide)).elim
      (fun c2 h => ⟨c2, h.1, h.2.1.trans (by decide)⟩)⟩

/-- C5: with an eviction callback configured, `Cleanup(now)` calls it once for
each record it removes, with that record's key and stored value, and never for
a record it keeps: the calls it adds to the trace are those for the expired
records, and the added calls for any one key `k` are the single call
`(k, value)` when `k` was in the map before and is not after, and none
otherwise. A record with both deadlines elapsed gets one call, not two. -/
theorem C5_cleanup_callbacks (c : LocalCache K V) (now : Int) (hwf : storeWF c.store)
    (hcb : c.onEvict = true) :
    ∃ (c2 : LocalCache K V) (added : List (K × V)),
      c.Cleanup now = Except.ok c2 ∧
      c2.onEvictCalls = c.onEvictCalls ++ added ∧
      added = (c.store.filter (fun e => idleExpired c now e.2 || ageExpired c now e.2)).map
        (fun e => (e.1, e.2.entry)) ∧
      (∀ k : K, added.filter (fun q => decide (q.1 = k))
        = match storeLookup k c.store, storeLookup k c2.store with
          | some r, none => [(k, r.entry)]
          | _, _ => []) ∧
      (∀ (k : K) (r : record V), storeLookup k c.store = some r →
        idleExpired c now r = true → ageExpired c now r = true →
        added.filter (fun q => decide (q.1 = k)) = [(k, r.entry)]) := by
  have hadd : ∀ k : K,
      ((c.store.filter (fun e => expired c now e.2)).map
          (fun e => (e.1, e.2.entry))).filter (fun q => decide (q.1 = k))
        = match storeLookup k c.store with
          | some r => if expired c now r then [(k, r.entry)] else []
          | none => [] :=
    fun k => filter_key_map_filter (fun e => expired c now e.2) k hwf
  refine ⟨sweptState c now, _, cleanup_eq c now hwf, ?_, rfl, ?_, ?_⟩
  · simp [sweptState, hcb, expired]
  · intro k
    have h1 := hadd k
    simp only [expired] at h1
    rw [h1]
    rw [storeLookup_sweptState c now hwf]
    cases storeLookup k c.store with
    | none => rfl
    | some r =>
      simp only [Option.bind]
      by_cases hx : (idleExpired c now r || ageExpired c now r) = true
      · rw [if_pos hx, if_pos hx]
      · rw [if_neg hx, if_neg hx]
  · intro k r hk hi ha
    have h1 := hadd k
    simp only [expired] at h1
    rw [h1, hk]
    simp [hi, ha]

/-- Witness of C5: the sweep of `exampleCache` at time `100` calls the callback
once for each of the records `1`, `2` and `4`, and not for record `3`. -/
theorem C5_cleanup_callbacks_witness :
    storeWF exampleCache.store ∧ exampleCache.onEvict = true ∧
      ∃ c2 : LocalCache Nat Nat,
        exampleCache.Cleanup 100 = Except.ok c2 ∧
        c2.onEvictCalls = [(1, 11), (2, 22), (4, 44)] :=
  ⟨by decide, rfl,
    (C5_cleanup_callbacks exampleCache 100 (by decide) rfl).elim
      (fun c2 h => h.elim
        (fun added h2 => ⟨c2, h2.1, h2.2.1.trans (h2.2.2.1 ▸ by decide)⟩))⟩

end CleanupClaims

/-! ## Expiry timers -/

section Timers

variable {K V : Type} [DecidableEq K]

theorem cleanupLoop_cons (c : LocalCache K V) (x : Int) (ticks : List Int)
    (hwf : storeWF c.store) :
    c.cleanupLoop (x :: ticks) = (sweptState c x).cleanupLoop ticks := by
  simp only [LocalCache.cleanupLoop, List.foldlM_cons, cleanup_eq c x hwf, bind, Except.bind]

theorem cleanupLoop_keeps (d : Int) (k : K) (r : record V) :
    ∀ (ticks : List Int) (c : LocalCache K V), storeWF c.store →
      c.accessExpire = some d → c.writeExpire = none → storeLookup k c.store = some r →
      (∀ x ∈ ticks, x ≤ r.accessAt + d) →
      ∃ c2 : LocalCache K V, c.cleanupLoop ticks = Except.ok c2 ∧ storeWF c2.store ∧
        c2.accessExpire = some d ∧ c2.writeExpire = none ∧ storeLookup k c2.store = some r := by
  intro ticks
  induction ticks with
  | nil =>
    intro c hwf ha hw hk _
    exact ⟨c, rfl, hwf, ha, hw, hk⟩
  | cons x ticks ih =>
    intro c hwf ha hw hk hx
    rw [cleanupLoop_cons c x ticks hwf]
    apply ih (sweptState c x) (storeWF_sweptState c x hwf) ha hw
    · rw [storeLookup_sweptState c x hwf, hk]
      have h1 : ¬ r.accessAt + d < x := not_lt.mpr (hx x (List.mem_cons_self _ _))
      simp [idleExpired, ageExpired, expiredBy, ha, hw, h1]
    · intro y hy
      exact hx y (List.mem_cons_of_mem _ hy)

theorem cleanup_removes [Inhabited V] (c : LocalCache K V) (now : Int) (k : K) (r : record V)
    (hwf : storeWF c.store) (hk : storeLookup k c.store = some r)
    (hx : (idleExpired c now r || ageExpired c now r) = true) :
    ∃ c3 : LocalCache K V, c.Cleanup now = Except.ok c3 ∧ storeLookup k c3.store = none ∧
      ∀ t : Int, c3.Get t k = ((default, some Error.ErrNoCacheEntry), c3) := by
  have h1 : storeLookup k (sweptState c now).store = none := by
    rw [storeLookup_sweptState c now hwf, hk]
    simp only [Option.bind]
    rw [if_pos hx]
  exact ⟨sweptState c now, cleanup_eq c now hwf, h1, fun t => get_of_absent _ t k h1⟩

/-- C6: with idle-expiration `d` configured and no age-expiration, a successful
`Get(k)` at time `t` returns the value and sets the record's `accessAt` to `t`,
leaving its value and `writeAt` unchanged; the record then survives a
`Cleanup(now)` for every `now <= t + d`, and any run of sweeps at such times;
and, the key not being read or written in between, a `Cleanup(now)` with
`now > t + d` removes it, after which `Get(k)` returns `ErrNoCacheEntry`. -/
theorem C6_idle_timer [Inhabited V] (c : LocalCache K V) (d t : Int) (k : K) (r : record V)
    (hwf : storeWF c.store) (hidle : c.accessExpire = some d) (hage : c.writeExpire = none)
    (hk : storeLookup k c.store = some r) :
    (c.Get t k).1 = (r.entry, none) ∧
    storeLookup k (c.Get t k).2.store
      = some { entry := r.entry, accessAt := t, writeAt := r.writeAt } ∧
    (∀ now : Int, now ≤ t + d →
      ∃ c2 : LocalCache K V, (c.Get t k).2.Cleanup now = Except.ok c2 ∧
        storeLookup k c2.store = some { entry := r.entry, accessAt := t, writeAt := r.writeAt }) ∧
    (∀ ticks : List Int, (∀ x ∈ ticks, x ≤ t + d) →
      ∃ c2 : LocalCache K V, (c.Get t k).2.cleanupLoop ticks = Except.ok c2 ∧
        storeLookup k c2.store = some { entry := r.entry, accessAt := t, writeAt := r.writeAt } ∧
        ∀ now : Int, t + d < now →
          ∃ c3 : LocalCache K V, c2.Cleanup now = Except.ok c3 ∧
            storeLookup k c3.store = none ∧
            ∀ t2 : Int, c3.Get t2 k = ((default, some Error.ErrNoCacheEntry), c3)) := by
  have hget := get_of_present c t k r hk
  have hwf1 : storeWF (c.Get t k).2.store := by
    rw [hget]
    exact storeWF_storeTouch k t hwf
  have hk1 : storeLookup k (c.Get t k).2.store
      = some { entry := r.entry, accessAt := t, writeAt := r.writeAt } := by
    rw [hget]
    exact storeLookup_storeTouch_self t hk
  have ha1 : (c.Get t k).2.accessExpire = some d := by rw [hget]; exact hidle
  have hw1 : (c.Get t k).2.writeExpire = none := by rw [hget]; exact hage
  have hloop := fun ticks h =>
    cleanupLoop_keeps d k { entry := r.entry, accessAt := t, writeAt := r.writeAt } ticks
      (c.Get t k).2 hwf1 ha1 hw1 hk1 h
  refine ⟨by rw [hget], hk1, ?_, ?_⟩
  · intro now hnow
    obtain ⟨c2, h1, _, _, _, h5⟩ := hloop [now] (by
      intro x hx
      rw [List.mem_singleton.mp hx]
      exact hnow)
    refine ⟨c2, ?_, h5⟩
    rw [cleanupLoop_cons _ now [] hwf1] at h1
    rw [LocalCache.Cleanup, cleanup_eq _ now hwf1]
    exact h1
  · intro ticks hticks
    obtain ⟨c2, h1, h2, h3, h4, h5⟩ := hloop ticks hticks
    refine ⟨c2, h1, h5, ?_⟩
    intro now hnow
    apply cleanup_removes c2 now k _ h2 h5
    simp [idleExpired, expiredBy, h3, hnow]

/-- Witness of C6: `idleCache` at `t = 5`, key `1`: the record read at time `5`
survives the sweeps at `7` and `15` and is removed by the sweep at `16`. -/
theorem C6_idle_timer_witness :
    storeWF idleCache.store ∧ idleCache.accessExpire = some 10 ∧
      idleCache.writeExpire = none ∧ storeLookup 1 idleCache.store = some ⟨11, 0, 0⟩ ∧
      ∃ c2 : LocalCache Nat Nat, (idleCache.Get 5 1).2.cleanupLoop [7, 15] = Except.ok c2 ∧
        storeLookup 1 c2.store = some ⟨11, 5, 0⟩ ∧
        ∃ c3 : LocalCache Nat Nat, c2.Cleanup 16 = Except.ok c3 ∧
          storeLookup 1 c3.store = none :=
  ⟨by decide, rfl, rfl, by decide,
    ((C6_idle_timer idleCache 10 5 1 ⟨11, 0, 0⟩ (by decide) rfl rfl (by decide)).2.2.2
        [7, 15] (by decide)).elim
      (fun c2 h => ⟨c2, h.1, h.2.1, ((h.2.2 16 (by decide)).elim
        (fun c3 h3 => ⟨c3, h3.1, h3.2.1⟩))⟩)⟩

theorem getsAt_spec [Inhabited V] (k : K) :
    ∀ (ts : List Int) (c : LocalCache K V) (r : record V), storeWF c.store →
      storeLookup k c.store = some r →
      (getsAt c k ts).1 = ts.map (fun _ => (r.entry, none)) ∧
      storeWF (getsAt c k ts).2.store ∧
      (getsAt c k ts).2.writeExpire = c.writeExpire ∧
      ∃ r2 : record V, storeLookup k (getsAt c k ts).2.store = some r2 ∧
        r2.entry = r.entry ∧ r2.writeAt = r.writeAt := by
  intro ts
  induction ts with
  | nil =>
    intro c r hwf hk
    exact ⟨rfl, hwf, rfl, r, hk, rfl, rfl⟩
  | cons t ts ih =>
    intro c r hwf hk
    have hget := get_of_present c t k r hk
    have hwf1 : storeWF (c.Get t k).2.store := by
      rw [hget]
      exact storeWF_storeTouch k t hwf
    have hk1 : storeLookup k (c.Get t k).2.store
        = some { entry := r.entry, accessAt := t, writeAt := r.writeAt } := by
      rw [hget]
      exact storeLookup_storeTouch_self t hk
    obtain ⟨h1, h2, h3, r2, h4, h5, h6⟩ := ih (c.Get t k).2 _ hwf1 hk1
    refine ⟨?_, h2, ?_, r2, h4, h5, h6⟩
    · simp only [getsAt, List.map_cons, h1]
      rw [hget]
    · simp only [getsAt]
      rw [h3, hget]

/-- C7: with age-expiration `a` configured, after `Set(k, v)` at time `t0`
followed by `Get(k)` calls at any times `ts`, every one of those calls returned
`v` with no error and the record still has value `v` and `writeAt = t0`; so
any `Cleanup(now)` with `now > t0 + a` removes `k`, and a following `Get(k)`
returns `ErrNoCacheEntry`. -/
theorem C7_age_timer [Inhabited V] (c : LocalCache K V) (a t0 : Int) (k : K) (v : V)
    (ts : List Int) (hwf : storeWF c.store) (hage : c.writeExpire = some a) :
    (getsAt (c.Set t0 k v).2 k ts).1 = ts.map (fun _ => (v, none)) ∧
    (∃ r : record V, storeLookup k (getsAt (c.Set t0 k v).2 k ts).2.store = some r ∧
      r.entry = v ∧ r.writeAt = t0) ∧
    (∀ now : Int, t0 + a < now →
      ∃ c2 : LocalCache K V, (getsAt (c.Set t0 k v).2 k ts).2.Cleanup now = Except.ok c2 ∧
        storeLookup k c2.store = none ∧
        ∀ t2 : Int, c2.Get t2 k = ((default, some Error.ErrNoCacheEntry), c2)) := by
  have hwf1 : storeWF (c.Set t0 k v).2.store := storeWF_storeAssign k _ hwf
  have hk1 : storeLookup k (c.Set t0 k v).2.store
      = some { entry := v, accessAt := t0, writeAt := t0 } :=
    storeLookup_storeAssign_self k _ _
  obtain ⟨h1, h2, h3, r2, h4, h5, h6⟩ := getsAt_spec k ts (c.Set t0 k v).2 _ hwf1 hk1
  refine ⟨h1, ⟨r2, h4, h5, h6⟩, ?_⟩
  intro now hnow
  apply cleanup_removes _ now k r2 h2 h4
  have h7 : (getsAt (c.Set t0 k v).2 k ts).2.writeExpire = some a := by
    rw [h3]
    exact hage
  have h8 : r2.writeAt + a < now := by
    rw [h6]
    exact hnow
  simp [ageExpired, expiredBy, h7, h8]

/-- Witness of C7: `ageCache`, `Set(1, 7)` at time `0`, reads at `4`, `9` and
`12`; the sweep at `11` removes the record in spite of the reads. -/
theorem C7_age_timer_witness :
    storeWF ageCache.store ∧ ageCache.writeExpire = some 10 ∧
      (getsAt (ageCache.Set 0 1 7).2 1 [4, 9, 12]).1 = [(7, none), (7, none), (7, none)] ∧
      ∃ c2 : LocalCache Nat Nat,
        (getsAt (ageCache.Set 0 1 7).2 1 [4, 9, 12]).2.Cleanup 11 = Except.ok c2 ∧
        storeLookup 1 c2.store = none :=
  ⟨by decide, rfl,
    (C7_age_timer ageCache 10 0 1 7 [4, 9, 12] (by decide) rfl).1,
    ((C7_age_timer ageCache 10 0 1 7 [4, 9, 12] (by decide) rfl).2.2 11 (by decide)).elim
      (fun c2 h => ⟨c2, h.1, h.2.1⟩)⟩

theorem length_storeDelete {k : K} {r : record V} :
    ∀ {s : List (K × record V)}, storeWF s → storeLookup k s = some r →
      (storeDelete k s).length + 1 = s.length := by
  intro s
  induction s with
  | nil =>
    intro _ h
    simp [storeLookup] at h
  | cons e rest ih =>
    intro hwf hk
    have h1 : (e.1 :: rest.map Prod.fst).Nodup := by simpa [storeWF] using hwf
    obtain ⟨h2, h3⟩ := List.nodup_cons.mp h1
    rw [storeLookup_cons] at hk
    rw [storeDelete_cons]
    by_cases he : e.1 = k
    · rw [if_pos he, storeDelete_of_not_mem (he ▸ h2)]
      rfl
    · rw [if_neg he] at hk
      rw [if_neg he, List.length_cons, ih h3 hk, List.length_cons]

theorem filter_key_storeDelete (k : K) (s : List (K × record V)) :
    (storeDelete k s).filter (fun e => decide (e.1 = k)) = [] := by
  rw [List.filter_eq_nil_iff]
  intro e he
  have h1 := (List.mem_filter.mp he).2
  simpa using h1

/-- C8: when key `k` is present, `Set(k, v)` at time `t` returns no error,
replaces the record by `{v, t, t}`, keeps exactly one record for `k` (the map
keeps its size and stays a map), leaves every other key's record unchanged and
does not call the eviction callback. -/
theorem C8_set_overwrite (c : LocalCache K V) (t : Int) (k : K) (v : V) (r0 : record V)
    (hwf : storeWF c.store) (hk : storeLookup k c.store = some r0) :
    (c.Set t k v).1 = none ∧
    storeLookup k (c.Set t k v).2.store = some { entry := v, accessAt := t, writeAt := t } ∧
    ((c.Set t k v).2.store.filter (fun e => decide (e.1 = k))).length = 1 ∧
    (c.Set t k v).2.store.length = c.store.length ∧
    storeWF (c.Set t k v).2.store ∧
    (∀ k2 : K, k2 ≠ k → storeLookup k2 (c.Set t k v).2.store = storeLookup k2 c.store) ∧
    (c.Set t k v).2.onEvictCalls = c.onEvictCalls := by
  refine ⟨rfl, storeLookup_storeAssign_self k _ _, ?_, ?_, storeWF_storeAssign k _ hwf,
    fun k2 h2 => storeLookup_storeAssign_ne h2 _ _, rfl⟩
  · simp only [LocalCache.Set, storeAssign, List.filter_cons, decide_True, if_true,
      filter_key_storeDelete, List.length_singleton]
  · simp only [LocalCache.Set, storeAssign, List.length_cons]
    exact length_storeDelete hwf hk

/-- Witness of C8: overwriting record `2` of `exampleCache` at time `100`. -/
theorem C8_set_overwrite_witness :
    storeWF exampleCache.store ∧ storeLookup 2 exampleCache.store = some ⟨22, 95, 50⟩ ∧
      storeLookup 2 (exampleCache.Set 100 2 5).2.store = some ⟨5, 100, 100⟩ ∧
      (exampleCache.Set 100 2 5).2.store.length = 4 :=
  ⟨by decide, by decide,
    (C8_set_overwrite exampleCache 100 2 5 ⟨22, 95, 50⟩ (by decide) (by decide)).2.1,
    (C8_set_overwrite exampleCache 100 2 5 ⟨22, 95, 50⟩ (by decide) (by decide)).2.2.2.1⟩

end Timers

/-! ## Loading -/

section Loading

variable {K V : Type} [DecidableEq K]

theorem tryLoaders_first_success (now : Int) (k : K) (f : Loader K V) (post : List (Loader K V))
    (v : V) (hf : f k = (v, none)) :
    ∀ (pre : List (Loader K V)) (c : loadingCache K V) (i : Nat) (res : V × Option Error),
      (∀ g ∈ pre, (g k).2 ≠ none) →
      loadingCache.tryLoaders c now k (pre ++ f :: post) i res
        = ((v, none),
            { c with
              loadCalls := c.loadCalls ++
                (List.range' i (pre.length + 1)).map (fun j => (LoaderId.arg j, k))
              LocalCache := (c.LocalCache.Set now k v).2 }) := by
  intro pre
  induction pre with
  | nil =>
    intro c i res _
    simp [loadingCache.tryLoaders, hf, LocalCache.Set, List.range']
  | cons g pre ih =>
    intro c i res hpre
    have hg : (g k).2 ≠ none := hpre g (List.mem_cons_self _ _)
    obtain ⟨e, herr⟩ : ∃ e, (g k).2 = some e := Option.ne_none_iff_exists'.mp hg
    have hgk : g k = ((g k).1, some e) := by rw [← herr]
    have hstep : loadingCache.tryLoaders c now k (g :: (pre ++ f :: post)) i res
        = loadingCache.tryLoaders
            { c with loadCalls := c.loadCalls ++ [(LoaderId.arg i, k)] } now k
            (pre ++ f :: post) (i + 1) ((g k).1, some e) := by
      rw [loadingCache.tryLoaders]
      simp only []
      rw [hgk]
    rw [List.cons_append, hstep, ih _ _ _ (fun g2 h2 => hpre g2 (List.mem_cons_of_mem _ h2))]
    simp [List.range', List.append_assoc]

theorem loading_get_of_present [Inhabited V] (lc : loadingCache K V) (now : Int) (k : K)
    (r : record V) (h : storeLookup k lc.LocalCache.store = some r) :
    lc.Get now k
      = ((r.entry, none),
          { lc with
            LocalCache :=
              { lc.LocalCache with store := storeTouch k now lc.LocalCache.store } }) := by
  simp [loadingCache.Get, h]

/-- C9: for a loading cache with default loader `f`, a key `k` absent from the
store and `f k = (v, nil)`: `Get(k)` calls `f` once, returns `(v, nil)` and
stores `v` under `k`; a following `Get` of the embedded local cache returns
`v`, and a following `Get` of the loading cache returns `v` and calls no
loader. -/
theorem C9_get_loads [Inhabited V] (lc : loadingCache K V) (f : Loader K V) (t t2 t3 : Int)
    (k : K) (v : V) (hload : lc.load = some f)
    (habs : storeLookup k lc.LocalCache.store = none) (hf : f k = (v, none)) :
    (lc.Get t k).1 = (v, none) ∧
    storeLookup k (lc.Get t k).2.LocalCache.store
      = some { entry := v, accessAt := t, writeAt := t } ∧
    (lc.Get t k).2.loadCalls = lc.loadCalls ++ [(LoaderId.default, k)] ∧
    ((lc.Get t k).2.LocalCache.Get t2 k).1 = (v, none) ∧
    ((lc.Get t k).2.Get t3 k).1 = (v, none) ∧
    ((lc.Get t k).2.Get t3 k).2.loadCalls = (lc.Get t k).2.loadCalls := by
  have hget : lc.Get t k
      = ((v, none),
          { lc with
            loadCalls := lc.loadCalls ++ [(LoaderId.default, k)]
            LocalCache := (lc.LocalCache.Set t k v).2 }) := by
    simp [loadingCache.Get, habs, hload, hf, LocalCache.Set]
  have hk : storeLookup k (lc.Get t k).2.LocalCache.store
      = some { entry := v, accessAt := t, writeAt := t } := by
    rw [hget]
    exact storeLookup_storeAssign_self k _ _
  refine ⟨by rw [hget], hk, by rw [hget], ?_, ?_, ?_⟩
  · rw [get_of_present _ t2 k _ hk]
  · rw [loading_get_of_present _ t3 k _ hk]
  · rw [loading_get_of_present _ t3 k _ hk]

/-- Witness of C9: a fresh loading cache with `succLoader`, key `4`. -/
theorem C9_get_loads_witness :
    (NewLoadingCacheWithLoader Nat Nat succLoader).load = some succLoader ∧
      storeLookup 4 (NewLoadingCacheWithLoader Nat Nat succLoader).LocalCache.store = none ∧
      succLoader 4 = (5, none) ∧
      ((NewLoadingCacheWithLoader Nat Nat succLoader).Get 10 4).1 = (5, none) ∧
      ((NewLoadingCacheWithLoader Nat Nat succLoader).Get 10 4).2.loadCalls
        = [(LoaderId.default, 4)] :=
  ⟨rfl, rfl, rfl,
    (C9_get_loads (NewLoadingCacheWithLoader Nat Nat succLoader) succLoader 10 11 12 4 5
      rfl rfl rfl).1,
    (C9_get_loads (NewLoadingCacheWithLoader Nat Nat succLoader) succLoader 10 11 12 4 5
      rfl rfl rfl).2.2.1⟩

/-- C10: `GetOrLoad(k, ls)` on a present key returns the cached value and calls
no loader; on an absent key, when the loaders before position `i` of `ls` fail
and the one at position `i` succeeds with `v`, it calls the loaders at
positions `0 .. i` in that order and no other, stores `v` under `k` and
returns `(v, nil)`. -/
theorem C10_getOrLoad [Inhabited V] (lc : loadingCache K V) (now : Int) (k : K)
    (ls : List (Loader K V)) :
    (∀ r : record V, storeLookup k lc.LocalCache.store = some r →
      (lc.GetOrLoad now k ls).1 = (r.entry, none) ∧
      (lc.GetOrLoad now k ls).2.loadCalls = lc.loadCalls) ∧
    (storeLookup k lc.LocalCache.store = none →
      ∀ (pre : List (Loader K V)) (f : Loader K V) (post : List (Loader K V)) (v : V),
        ls = pre ++ f :: post → (∀ g ∈ pre, (g k).2 ≠ none) → f k = (v, none) →
        (lc.GetOrLoad now k ls).1 = (v, none) ∧
        (lc.GetOrLoad now k ls).2.loadCalls
          = lc.loadCalls ++ (List.range (pre.length + 1)).map (fun j => (LoaderId.arg j, k)) ∧
        storeLookup k (lc.GetOrLoad now k ls).2.LocalCache.store
          = some { entry := v, accessAt := now, writeAt := now }) := by
  constructor
  · intro r hk
    simp [loadingCache.GetOrLoad, hk]
  · intro habs pre f post v hls hpre hf
    have h1 : lc.GetOrLoad now k ls
        = loadingCache.tryLoaders lc now k (pre ++ f :: post) 0 (default, none) := by
      simp [loadingCache.GetOrLoad, habs, hls]
    rw [h1, tryLoaders_first_success now k f post v hf pre lc 0 _ hpre]
    refine ⟨rfl, ?_, storeLookup_storeAssign_self k _ _⟩
    simp only [List.range_eq_range']

/-- Witness of C10: on a fresh cache, `GetOrLoad(4, [failLoader, succLoader,
failLoader])` calls the loaders at positions `0` and `1` and returns `5`; a
second call finds the key and calls no loader. -/
theorem C10_getOrLoad_witness :
    ((NewLoadingCache Nat Nat).GetOrLoad 10 4 [failLoader, succLoader, failLoader]).1
        = (5, none) ∧
      ((NewLoadingCache Nat Nat).GetOrLoad 10 4 [failLoader, succLoader, failLoader]).2.loadCalls
        = [(LoaderId.arg 0, 4), (LoaderId.arg 1, 4)] ∧
      (((NewLoadingCache Nat Nat).GetOrLoad 10 4 [failLoader, succLoader, failLoader]).2.GetOrLoad
          20 4 [failLoader]).1 = (5, none) :=
  ⟨((C10_getOrLoad (NewLoadingCache Nat Nat) 10 4 [failLoader, succLoader, failLoader]).2 rfl
      [failLoader] succLoader [failLoader] 5 rfl (by decide) rfl).1,
    ((C10_getOrLoad (NewLoadingCache Nat Nat) 10 4 [failLoader, succLoader, failLoader]).2 rfl
      [failLoader] succLoader [failLoader] 5 rfl (by decide) rfl).2.1,
    ((C10_getOrLoad
        ((NewLoadingCache Nat Nat).GetOrLoad 10 4 [failLoader, succLoader, failLoader]).2
        20 4 [failLoader]).1 ⟨5, 10, 10⟩ rfl).1⟩

end Loading

/-! ## Failed loads and Refresh -/

section Refreshing

variable {K V : Type} [DecidableEq K]

theorem tryLoaders_all_fail (now : Int) (k : K) :
    ∀ (ls : List (Loader K V)) (c : loadingCache K V) (i : Nat) (res : V × Option Error),
      (∀ g ∈ ls, (g k).2 ≠ none) →
      (loadingCache.tryLoaders c now k ls i res).1 = (ls.map (fun g => g k)).getLastD res ∧
      (loadingCache.tryLoaders c now k ls i res).2
        = { c with
            loadCalls := c.loadCalls ++
              (List.range' i ls.length).map (fun j => (LoaderId.arg j, k)) } := by
  intro ls
  induction ls with
  | nil =>
    intro c i res _
    simp [loadingCache.tryLoaders, List.range']
  | cons g ls ih =>
    intro c i res hls
    have hg : (g k).2 ≠ none := hls g (List.mem_cons_self _ _)
    obtain ⟨e, herr⟩ : ∃ e, (g k).2 = some e := Option.ne_none_iff_exists'.mp hg
    have hgk : g k = ((g k).1, some e) := by rw [← herr]
    have hstep : loadingCache.tryLoaders c now k (g :: ls) i res
        = loadingCache.tryLoaders
            { c with loadCalls := c.loadCalls ++ [(LoaderId.arg i, k)] } now k
            ls (i + 1) ((g k).1, some e) := by
      rw [loadingCache.tryLoaders]
      simp only []
      rw [hgk]
    obtain ⟨h1, h2⟩ := ih { c with loadCalls := c.loadCalls ++ [(LoaderId.arg i, k)] }
      (i + 1) ((g k).1, some e) (fun g2 hg2 => hls g2 (List.mem_cons_of_mem _ hg2))
    rw [hstep, h1, h2]
    constructor
    · rw [← hgk]
      rw [List.map_cons, List.getLastD_cons]
    · simp [List.range', List.append_assoc]

/-- C11: a failed load leaves the local cache (the map with every record's
value and timestamps, and all else) unchanged and the error is returned as
is: when the default loader fails with `e` in `Get` on an absent key or in
`Refresh` on a present key, or when every loader of a non-empty list fails in
`GetOrLoad` on an absent key, the last one with `e`, the operation completes
and returns `e`. -/
theorem C11_failed_load [Inhabited V] (lc : loadingCache K V) (now : Int) (k : K) (e : Error) :
    (∀ (f : Loader K V) (x : V), lc.load = some f → f k = (x, some e) →
      storeLookup k lc.LocalCache.store = none →
      (lc.Get now k).1.2 = some e ∧ (lc.Get now k).2.LocalCache = lc.LocalCache) ∧
    (∀ (f : Loader K V) (x : V) (r : record V), lc.load = some f → f k = (x, some e) →
      storeLookup k lc.LocalCache.store = some r →
      ∃ lc2 : loadingCache K V,
        lc.Refresh now k = Except.ok (some e, lc2) ∧ lc2.LocalCache = lc.LocalCache) ∧
    (∀ (pre : List (Loader K V)) (g : Loader K V) (x : V),
      (∀ h ∈ pre, (h k).2 ≠ none) → g k = (x, some e) →
      storeLookup k lc.LocalCache.store = none →
      (lc.GetOrLoad now k (pre ++ [g])).1.2 = some e ∧
      (lc.GetOrLoad now k (pre ++ [g])).2.LocalCache = lc.LocalCache) := by
  refine ⟨?_, ?_, ?_⟩
  · intro f x hload hf habs
    simp [loadingCache.Get, habs, hload, hf]
  · intro f x r hload hf hk
    refine ⟨{ lc with loadCalls := lc.loadCalls ++ [(LoaderId.default, k)] }, ?_, rfl⟩
    simp [loadingCache.Refresh, hk, hload, hf, pure, Except.pure]
  · intro pre g x hpre hg habs
    have hall : ∀ h ∈ pre ++ [g], (h k).2 ≠ none := by
      intro h hmem
      rcases List.mem_append.mp hmem with h1 | h1
      · exact hpre h h1
      · rw [List.mem_singleton.mp h1, hg]
        simp
    have h1 : lc.GetOrLoad now k (pre ++ [g])
        = loadingCache.tryLoaders lc now k (pre ++ [g]) 0 (default, none) := by
      simp [loadingCache.GetOrLoad, habs]
    obtain ⟨h2, h3⟩ := tryLoaders_all_fail now k (pre ++ [g]) lc 0 (default, none) hall
    rw [h1, h2, h3, List.map_append, List.map_singleton, List.getLastD_concat, hg]
    exact ⟨rfl, rfl⟩

/-- Witness of C11: the failing default loader in `Get(2)` and `Refresh(1)` of
`failingCache`, and the failing list `[failLoader, failLoader2]` in
`GetOrLoad(2)`, whose last error has tag `2`. -/
theorem C11_failed_load_witness :
    ((failingCache.Get 5 2).1.2 = some (Error.other 1) ∧
      (failingCache.Get 5 2).2.LocalCache = idleCache) ∧
    (∃ lc2 : loadingCache Nat Nat,
      failingCache.Refresh 5 1 = Except.ok (some (Error.other 1), lc2) ∧
      lc2.LocalCache = idleCache) ∧
    ((failingCache.GetOrLoad 5 2 [failLoader, failLoader2]).1.2 = some (Error.other 2) ∧
      (failingCache.GetOrLoad 5 2 [failLoader, failLoader2]).2.LocalCache = idleCache) :=
  ⟨(C11_failed_load failingCache 5 2 (Error.other 1)).1 failLoader 3 rfl rfl (by decide),
    (C11_failed_load failingCache 5 1 (Error.other 1)).2.1 failLoader 3 ⟨11, 0, 0⟩ rfl rfl
      (by decide),
    (C11_failed_load failingCache 5 2 (Error.other 2)).2.2 [failLoader] failLoader2 4
      (by decide) rfl (by decide)⟩

/-- C12: `Refresh(k)` on a key absent from the store returns
`ErrNoCacheEntry`, calls no loader and leaves the whole cache unchanged (no
entry is created), whether or not a default loader is configured. -/
theorem C12_refresh_absent (lc : loadingCache K V) (now : Int) (k : K)
    (habs : storeLookup k lc.LocalCache.store = none) :
    lc.Refresh now k = Except.ok (some Error.ErrNoCacheEntry, lc) := by
  simp [loadingCache.Refresh, habs, pure, Except.pure]

/-- Witness of C12: key `2` is absent from `failingCache`. -/
theorem C12_refresh_absent_witness :
    storeLookup 2 failingCache.LocalCache.store = none ∧
      failingCache.Refresh 5 2 = Except.ok (some Error.ErrNoCacheEntry, failingCache) :=
  ⟨by decide, C12_refresh_absent failingCache 5 2 (by decide)⟩

theorem refresh_of_success (lc : loadingCache K V) (f : Loader K V) (t : Int) (k : K) (v : V)
    (r0 : record V) (hload : lc.load = some f) (hf : f k = (v, none))
    (hk : storeLookup k lc.LocalCache.store = some r0) :
    lc.Refresh t k
      = Except.ok (none,
          { lc with
            loadCalls := lc.loadCalls ++ [(LoaderId.default, k)]
            LocalCache := (lc.LocalCache.Set t k v).2 }) := by
  simp [loadingCache.Refresh, hk, hload, hf, pure, Except.pure, LocalCache.Set]

/-- Counterexample to C13 as stated: `refreshCache` has age-expiration `10` and
also idle-expiration `1`; after `Refresh(1)` at time `0` the sweep at time `5`,
which is not after `0 + 10`, removes the refreshed record. -/
theorem C13_refresh_survival_counterexample :
    refreshCache.load = some succLoader ∧ succLoader 1 = (2, none) ∧
      storeLookup 1 refreshCache.LocalCache.store = some ⟨11, 0, 0⟩ ∧
      refreshCache.LocalCache.writeExpire = some 10 ∧ (5 : Int) ≤ 0 + 10 ∧
      ∃ (lc2 : loadingCache Nat Nat) (c3 : LocalCache Nat Nat),
        refreshCache.Refresh 0 1 = Except.ok (none, lc2) ∧
        lc2.LocalCache.Cleanup 5 = Except.ok c3 ∧
        storeLookup 1 c3.store = none :=
  ⟨rfl, rfl, by decide, rfl, by decide, _, _, rfl, rfl, by decide⟩

/-- C13 (amended): for a loading cache with default loader `f`, a present key
`k` and `f k = (v, nil)`, whatever the expiry configuration, `Refresh(k)` at
time `t` calls `f` once, returns no error and replaces the record by
`{v, t, t}`, leaving other keys unchanged; when age-expiration `a` is
configured, the refreshed record survives `Cleanup(now)` for `now <= t + a`
provided idle-expiration is not configured or its deadline `t + d` is not
before `now`, and it is removed by `Cleanup(now)` for `now > t + a`. -/
theorem C13_refresh_success (lc : loadingCache K V) (f : Loader K V) (t : Int) (k : K)
    (v : V) (r0 : record V) (hload : lc.load = some f)
    (hf : f k = (v, none)) (hk : storeLookup k lc.LocalCache.store = some r0) :
    ∃ lc2 : loadingCache K V,
      lc.Refresh t k = Except.ok (none, lc2) ∧
      lc2.loadCalls = lc.loadCalls ++ [(LoaderId.default, k)] ∧
      storeLookup k lc2.LocalCache.store = some { entry := v, accessAt := t, writeAt := t } ∧
      (∀ k2 : K, k2 ≠ k →
        storeLookup k2 lc2.LocalCache.store = storeLookup k2 lc.LocalCache.store) ∧
      (∀ a : Int, storeWF lc.LocalCache.store → lc.LocalCache.writeExpire = some a →
        (∀ now : Int, now ≤ t + a →
          (∀ d : Int, lc.LocalCache.accessExpire = some d → now ≤ t + d) →
          ∃ c3 : LocalCache K V, lc2.LocalCache.Cleanup now = Except.ok c3 ∧
            storeLookup k c3.store = some { entry := v, accessAt := t, writeAt := t }) ∧
        (∀ now : Int, t + a < now →
          ∃ c3 : LocalCache K V, lc2.LocalCache.Cleanup now = Except.ok c3 ∧
            storeLookup k c3.store = none)) := by
  have hk2 : storeLookup k (lc.LocalCache.Set t k v).2.store
      = some { entry := v, accessAt := t, writeAt := t } :=
    storeLookup_storeAssign_self k _ _
  refine ⟨_, refresh_of_success lc f t k v r0 hload hf hk, rfl, hk2,
    fun k2 h2 => storeLookup_storeAssign_ne h2 _ _, ?_⟩
  intro a hwf hage
  have hwf2 : storeWF (lc.LocalCache.Set t k v).2.store := storeWF_storeAssign k _ hwf
  constructor
  · intro now hnow hidle
    refine ⟨sweptState (lc.LocalCache.Set t k v).2 now, cleanup_eq _ now hwf2, ?_⟩
    rw [storeLookup_sweptState _ now hwf2, hk2]
    have h1 : idleExpired (lc.LocalCache.Set t k v).2 now
        { entry := v, accessAt := t, writeAt := t } = false := by
      show expiredBy lc.LocalCache.accessExpire t now = false
      unfold expiredBy
      cases hx : lc.LocalCache.accessExpire with
      | none => rfl
      | some d => simpa using hidle d hx
    have h2 : ageExpired (lc.LocalCache.Set t k v).2 now
        { entry := v, accessAt := t, writeAt := t } = false := by
      show expiredBy lc.LocalCache.writeExpire t now = false
      rw [hage]
      simpa [expiredBy] using hnow
    simp [h1, h2]
  · intro now hnow
    refine ⟨sweptState (lc.LocalCache.Set t k v).2 now, cleanup_eq _ now hwf2, ?_⟩
    rw [storeLookup_sweptState _ now hwf2, hk2]
    have h2 : ageExpired (lc.LocalCache.Set t k v).2 now
        { entry := v, accessAt := t, writeAt := t } = true := by
      show expiredBy lc.LocalCache.writeExpire t now = true
      rw [hage]
      simpa [expiredBy] using hnow
    simp [h2]

/-- Witness of C13 (amended): `Refresh(1)` of `noAgeCache`, which has no
age-expiration, at time `7` replaces the record; `Refresh(1)` of
`refreshCache` at time `0` does so too, the sweep at time `1` then keeps the
refreshed record and the sweep at `11` removes it. -/
theorem C13_refresh_success_witness :
    (noAgeCache.load = some succLoader ∧ succLoader 1 = (2, none) ∧
      storeLookup 1 noAgeCache.LocalCache.store = some ⟨11, 0, 0⟩ ∧
      noAgeCache.LocalCache.writeExpire = none ∧
      ∃ lc2 : loadingCache Nat Nat,
        noAgeCache.Refresh 7 1 = Except.ok (none, lc2) ∧
        storeLookup 1 lc2.LocalCache.store = some ⟨2, 7, 7⟩) ∧
    (storeWF refreshCache.LocalCache.store ∧ refreshCache.load = some succLoader ∧
      storeLookup 1 refreshCache.LocalCache.store = some ⟨11, 0, 0⟩ ∧
      refreshCache.LocalCache.writeExpire = some 10 ∧
      ∃ lc2 : loadingCache Nat Nat,
        refreshCache.Refresh 0 1 = Except.ok (none, lc2) ∧
        (∃ c3 : LocalCache Nat Nat, lc2.LocalCache.Cleanup 1 = Except.ok c3 ∧
          storeLookup 1 c3.store = some ⟨2, 0, 0⟩) ∧
        (∃ c3 : LocalCache Nat Nat, lc2.LocalCache.Cleanup 11 = Except.ok c3 ∧
          storeLookup 1 c3.store = none)) :=
  ⟨⟨rfl, rfl, by decide, rfl,
    (C13_refresh_success noAgeCache succLoader 7 1 2 ⟨11, 0, 0⟩ rfl rfl (by decide)).elim
      (fun lc2 h => ⟨lc2, h.1, h.2.2.1⟩)⟩,
   ⟨by decide, rfl, by decide, rfl,
    (C13_refresh_success refreshCache succLoader 0 1 2 ⟨11, 0, 0⟩ rfl rfl (by decide)).elim
      (fun lc2 h => ⟨lc2, h.1,
        (h.2.2.2.2 10 (by decide) rfl).1 1 (by decide) (fun d hd => by
          have h1 : d = 1 := (Option.some.inj hd).symm
          rw [h1]
          decide),
        (h.2.2.2.2 10 (by decide) rfl).2 11 (by decide)⟩)⟩⟩

end Refreshing

/-! ## Delete and lookups -/

section Lookups

variable {K V : Type} [DecidableEq K]

/-- C14, at the failing input: with an eviction callback configured
(`callbackCache`, and likewise `exampleCache`), `Delete(9)` of the absent key
`9` dereferences the nil record and faults instead of being a no-op. -/
theorem C14_delete_absent_faults :
    storeLookup 9 callbackCache.store = none ∧ callbackCache.onEvict = true ∧
      callbackCache.Delete 9 = Except.error Fault.nilDereference ∧
      storeLookup 9 exampleCache.store = none ∧
      exampleCache.Delete 9 = Except.error Fault.nilDereference :=
  ⟨rfl, rfl, rfl, by decide, rfl⟩

theorem delete_absent_without_callback (c : LocalCache K V) (k : K)
    (habs : storeLookup k c.store = none) (hcb : c.onEvict = false) :
    c.Delete k = Except.ok c := by
  have h1 : storeDelete k c.store = c.store :=
    storeDelete_of_not_mem ((storeLookup_eq_none_iff k c.store).mp habs)
  obtain ⟨s, ae, we, ti, oe, calls⟩ := c
  simp only at hcb h1
  subst hcb
  simp [LocalCache.Delete, LocalCache.unsafeEvict, h1, pure, Except.pure, bind, Except.bind]

theorem delete_absent_with_callback (c : LocalCache K V) (k : K)
    (habs : storeLookup k c.store = none) (hcb : c.onEvict = true) :
    c.Delete k = Except.error Fault.nilDereference := by
  simp [LocalCache.Delete, LocalCache.unsafeEvict, habs, hcb, bind, Except.bind]

/-- C15: lookups never expire records. If key `k` is in the map, `Get(k)` at
any time `now` (whatever the record's deadlines) returns its value with no
error, keeps every key of the map, changes nothing but that record's
`accessAt`, and calls no eviction callback; `Set` removes no key either. -/
theorem C15_get_never_expires [Inhabited V] (c : LocalCache K V) (now : Int) (k : K)
    (r : record V) (hk : storeLookup k c.store = some r) :
    (c.Get now k).1 = (r.entry, none) ∧
    (c.Get now k).2.store.map Prod.fst = c.store.map Prod.fst ∧
    storeLookup k (c.Get now k).2.store
      = some { entry := r.entry, accessAt := now, writeAt := r.writeAt } ∧
    (∀ k2 : K, k2 ≠ k → storeLookup k2 (c.Get now k).2.store = storeLookup k2 c.store) ∧
    (c.Get now k).2.onEvictCalls = c.onEvictCalls ∧
    (∀ (t : Int) (k1 : K) (v : V) (k2 : K), storeLookup k2 c.store ≠ none →
      storeLookup k2 (c.Set t k1 v).2.store ≠ none) := by
  have hget := get_of_present c now k r hk
  refine ⟨by rw [hget], ?_, ?_, ?_, by rw [hget], ?_⟩
  · rw [hget]
    exact storeTouch_keys k now c.store
  · rw [hget]
    exact storeLookup_storeTouch_self now hk
  · intro k2 h2
    rw [hget]
    exact storeLookup_storeTouch_ne h2 now c.store
  · intro t k1 v k2 h2
    by_cases h : k2 = k1
    · subst h
      simp [LocalCache.Set, storeLookup_storeAssign_self]
    · simpa [LocalCache.Set, storeLookup_storeAssign_ne h] using h2

/-- Witness of C15: record `1` of `exampleCache` has both deadlines (`10` and
`20`) long before time `100`, and `Get(1)` at `100` still returns it. -/
theorem C15_get_never_expires_witness :
    storeLookup 1 exampleCache.store = some ⟨11, 0, 0⟩ ∧
      expired exampleCache 100 ⟨11, 0, 0⟩ = true ∧
      (exampleCache.Get 100 1).1 = (11, none) ∧
      (exampleCache.Get 100 1).2.store.map Prod.fst = [1, 2, 3, 4] :=
  ⟨by decide, by decide,
    (C15_get_never_expires exampleCache 100 1 ⟨11, 0, 0⟩ (by decide)).1,
    (C15_get_never_expires exampleCache 100 1 ⟨11, 0, 0⟩ (by decide)).2.1⟩

theorem mapLookup_eq_none_iff {W : Type} (k : K) (m : List (K × W)) :
    mapLookup k m = none ↔ k ∉ m.map Prod.fst := by
  induction m with
  | nil => simp [mapLookup]
  | cons p rest ih =>
    by_cases h1 : p.1 = k
    · simp [mapLookup, h1]
    · have h2 : ¬ k = p.1 := fun h3 => h1 h3.symm
      simpa [mapLookup, h1, h2] using ih

theorem mapLookup_filter_ne {W : Type} {k id : K} (h : k ≠ id) (m : List (K × W)) :
    mapLookup k (m.filter (fun p => !decide (p.1 = id))) = mapLookup k m := by
  induction m with
  | nil => rfl
  | cons p rest ih =>
    by_cases h1 : p.1 = id
    · have h2 : p.1 ≠ k := fun h3 => h (h3 ▸ h1)
      have hf : (p :: rest).filter (fun p => !decide (p.1 = id))
          = rest.filter (fun p => !decide (p.1 = id)) := by
        simp [List.filter_cons, h1]
      rw [hf, ih]
      show mapLookup k rest = (if p.1 = k then some p.2 else mapLookup k rest)
      rw [if_neg h2]
    · have hf : (p :: rest).filter (fun p => !decide (p.1 = id))
          = p :: rest.filter (fun p => !decide (p.1 = id)) := by
        simp [List.filter_cons, h1]
      rw [hf]
      show (if p.1 = k then some p.2
          else mapLookup k (rest.filter (fun p => !decide (p.1 = id))))
        = (if p.1 = k then some p.2 else mapLookup k rest)
      rw [ih]

theorem asMap_fold_lookup (k : K) :
    ∀ (l : List (K × record V)) (m : List (K × V)), storeWF l →
      mapLookup k (l.foldl
          (fun m e => (e.1, e.2.entry) :: m.filter (fun p => !decide (p.1 = e.1))) m)
        = match storeLookup k l with
          | some r => some r.entry
          | none => mapLookup k m := by
  intro l
  induction l with
  | nil =>
    intro m _
    rfl
  | cons e l ih =>
    intro m hwf
    have h1 : (e.1 :: l.map Prod.fst).Nodup := by simpa [storeWF] using hwf
    obtain ⟨h2, h3⟩ := List.nodup_cons.mp h1
    rw [List.foldl_cons, ih _ h3, storeLookup_cons]
    by_cases hk : e.1 = k
    · have h4 : storeLookup k l = none :=
        (storeLookup_eq_none_iff k l).mpr (hk ▸ h2)
      rw [if_pos hk, h4]
      simp [mapLookup, hk]
    · rw [if_neg hk]
      have h5 : k ≠ e.1 := fun h6 => hk h6.symm
      cases storeLookup k l with
      | some r => rfl
      | none =>
        simp only [mapLookup, if_neg hk]
        exact mapLookup_filter_ne h5 m

theorem asMap_fold_nodup :
    ∀ (l : List (K × record V)) (m : List (K × V)), (m.map Prod.fst).Nodup →
      ((l.foldl
          (fun m e => (e.1, e.2.entry) :: m.filter (fun p => !decide (p.1 = e.1))) m).map
        Prod.fst).Nodup := by
  intro l
  induction l with
  | nil =>
    intro m hm
    exact hm
  | cons e l ih =>
    intro m hm
    rw [List.foldl_cons]
    apply ih
    rw [List.map_cons, List.nodup_cons]
    constructor
    · intro hmem
      obtain ⟨p, hp, hpk⟩ := List.mem_map.mp hmem
      have h1 := (List.mem_filter.mp hp).2
      simp at h1
      exact h1 hpk
    · exact List.Nodup.sublist ((List.filter_sublist m).map Prod.fst) hm

theorem heapRead_fold_assign (m : Nat) :
    ∀ (s : List (K × record V)) (h1 : Heap K V) (acc : List (K × V)),
      heapRead h1 m = some (MapObject.values acc) →
      heapRead (s.foldl (fun h2 e => heapAssign h2 m e.1 e.2.entry) h1) m
        = some (MapObject.values (s.foldl
            (fun m e => (e.1, e.2.entry) :: m.filter (fun p => !decide (p.1 = e.1))) acc)) ∧
      ∀ b : Nat, b ≠ m →
        heapRead (s.foldl (fun h2 e => heapAssign h2 m e.1 e.2.entry) h1) b
          = heapRead h1 b := by
  intro s
  induction s with
  | nil =>
    intro h1 acc hm
    exact ⟨hm, fun _ _ => rfl⟩
  | cons e s ih =>
    intro h1 acc hm
    have hstep : heapAssign h1 m e.1 e.2.entry
        = h1.set m (MapObject.values
            ((e.1, e.2.entry) :: acc.filter (fun p => !decide (p.1 = e.1)))) := by
      unfold heapAssign
      rw [hm]
    have hm2 := heapRead_set_self
      (MapObject.values ((e.1, e.2.entry) :: acc.filter (fun p => !decide (p.1 = e.1))))
      (heapRead_lt hm)
    rw [← hstep] at hm2
    obtain ⟨h3, h4⟩ := ih _ _ hm2
    rw [List.foldl_cons, List.foldl_cons]
    refine ⟨h3, ?_⟩
    intro b hb
    rw [h4 b hb, hstep]
    exact heapRead_set_ne _ (fun hc => hb hc.symm)

theorem delete_store {c c2 : LocalCache K V} {k : K} (h : c.Delete k = Except.ok c2) :
    c2.store = storeDelete k c.store := by
  unfold LocalCache.Delete LocalCache.unsafeEvict at h
  cases hcb : c.onEvict with
  | false =>
    simp [hcb, pure, Except.pure, bind, Except.bind] at h
    rw [← h]
  | true =>
    cases hl : storeLookup k c.store with
    | none => simp [hcb, hl, bind, Except.bind] at h
    | some r =>
      simp [hcb, hl, pure, Except.pure, bind, Except.bind] at h
      rw [← h]

/-- C16: `AsMap` returns a map (one value per key) whose key set is the
store's key set and which maps each key to that key's stored value, so it has
as many entries as the store. With the map objects on a heap and the store at
address `a`: `AsMap` returns a reference to a new object holding that map and
leaves every object that existed before, the store with its values and
timestamps among them, unchanged; a later `Set` or `Delete` writes the store's
object and leaves the object of the snapshot already returned as it was. -/
theorem C16_asMap_snapshot (c : LocalCache K V) (hwf : storeWF c.store) :
    (∀ k : K, mapLookup k c.AsMap = (storeLookup k c.store).map (fun r => r.entry)) ∧
    (c.AsMap.map Prod.fst).Nodup ∧
    (∀ k : K, k ∈ c.AsMap.map Prod.fst ↔ k ∈ c.store.map Prod.fst) ∧
    c.AsMap.length = c.store.length ∧
    (∀ (h : Heap K V) (a : Nat), heapRead h a = some (MapObject.records c.store) →
      ∃ h2 : Heap K V,
        heapAsMap h a = some (h2, h.length) ∧
        heapRead h2 h.length = some (MapObject.values c.AsMap) ∧
        heapRead h2 a = some (MapObject.records c.store) ∧
        (∀ b : Nat, b < h.length → heapRead h2 b = heapRead h b) ∧
        (∀ (t : Int) (k : K) (v : V),
          heapRead (heapSet h2 a t k v) a = some (MapObject.records (c.Set t k v).2.store) ∧
          heapRead (heapSet h2 a t k v) h.length = some (MapObject.values c.AsMap)) ∧
        (∀ k : K,
          heapRead (heapDelete h2 a k) a = some (MapObject.records (storeDelete k c.store)) ∧
          heapRead (heapDelete h2 a k) h.length = some (MapObject.values c.AsMap) ∧
          ∀ c2 : LocalCache K V, c.Delete k = Except.ok c2 →
            heapRead (heapDelete h2 a k) a = some (MapObject.records c2.store))) := by
  have hlook : ∀ k : K,
      mapLookup k c.AsMap = (storeLookup k c.store).map (fun r => r.entry) := by
    intro k
    rw [LocalCache.AsMap, asMap_fold_lookup k c.store [] hwf]
    cases storeLookup k c.store <;> rfl
  have hnodup : (c.AsMap.map Prod.fst).Nodup :=
    asMap_fold_nodup c.store [] List.nodup_nil
  have hmem : ∀ k : K, k ∈ c.AsMap.map Prod.fst ↔ k ∈ c.store.map Prod.fst := by
    intro k
    have h1 := mapLookup_eq_none_iff k c.AsMap
    have h2 := storeLookup_eq_none_iff k c.store
    rw [hlook k] at h1
    constructor
    · intro hk
      by_contra hc
      have h3 := h2.mpr hc
      rw [h3] at h1
      exact (h1.mp rfl) hk
    · intro hk
      by_contra hc
      have h3 := h1.mpr hc
      have h4 : storeLookup k c.store = none := by
        cases hx : storeLookup k c.store with
        | none => rfl
        | some r => rw [hx] at h3; simp at h3
      exact (h2.mp h4) hk
  have hlen : c.AsMap.length = c.store.length := by
    have hperm : (c.AsMap.map Prod.fst).Perm (c.store.map Prod.fst) :=
      (List.perm_ext_iff_of_nodup hnodup hwf).mpr hmem
    simpa using hperm.length_eq
  refine ⟨hlook, hnodup, hmem, hlen, ?_⟩
  intro h a ha
  have halt : a < h.length := heapRead_lt ha
  have hne : a ≠ h.length := Nat.ne_of_lt halt
  have hnew : heapRead (heapMake h).1 h.length = some (MapObject.values []) :=
    List.getElem?_concat_length h _
  have hold : ∀ b : Nat, b < h.length → heapRead (heapMake h).1 b = heapRead h b :=
    fun b hb => List.getElem?_append_left hb
  obtain ⟨hf1, hf2⟩ := heapRead_fold_assign h.length c.store (heapMake h).1 [] hnew
  have hsnap : heapRead
      (c.store.foldl (fun h2 e => heapAssign h2 h.length e.1 e.2.entry) (heapMake h).1)
      h.length = some (MapObject.values c.AsMap) := hf1
  have hstore : heapRead
      (c.store.foldl (fun h2 e => heapAssign h2 h.length e.1 e.2.entry) (heapMake h).1) a
      = some (MapObject.records c.store) := by
    rw [hf2 a hne, hold a halt, ha]
  refine ⟨_, ?_, hsnap, hstore, ?_, ?_, ?_⟩
  · unfold heapAsMap
    rw [ha]
    rfl
  · intro b hb
    rw [hf2 b (Nat.ne_of_lt hb), hold b hb]
  · intro t k v
    have hset : heapSet
        (c.store.foldl (fun h2 e => heapAssign h2 h.length e.1 e.2.entry) (heapMake h).1)
        a t k v
        = (c.store.foldl (fun h2 e => heapAssign h2 h.length e.1 e.2.entry) (heapMake h).1).set
            a (MapObject.records (c.Set t k v).2.store) := by
      unfold heapSet
      rw [hstore]
      rfl
    rw [hset]
    exact ⟨heapRead_set_self _ (heapRead_lt hstore),
      (heapRead_set_ne _ hne).trans hsnap⟩
  · intro k
    have hdel : heapDelete
        (c.store.foldl (fun h2 e => heapAssign h2 h.length e.1 e.2.entry) (heapMake h).1)
        a k
        = (c.store.foldl (fun h2 e => heapAssign h2 h.length e.1 e.2.entry) (heapMake h).1).set
            a (MapObject.records (storeDelete k c.store)) := by
      unfold heapDelete
      rw [hstore]
    rw [hdel]
    refine ⟨heapRead_set_self _ (heapRead_lt hstore),
      (heapRead_set_ne _ hne).trans hsnap, ?_⟩
    intro c2 hc2
    rw [delete_store hc2]
    exact heapRead_set_self _ (heapRead_lt hstore)

/-- Witness of C16: the snapshot of `exampleCache`; on the heap that holds only
the store of `exampleCache`, at address `0`, `AsMap` returns address `1`, and
after `Set(2, 5)` the store's object maps `2` to the new record while the
snapshot at address `1` is still the map `AsMap` returned. -/
theorem C16_asMap_snapshot_witness :
    storeWF exampleCache.store ∧
      mapLookup 2 exampleCache.AsMap = some 22 ∧
      exampleCache.AsMap.length = 4 ∧
      ∃ h2 : Heap Nat Nat,
        heapAsMap [MapObject.records exampleCache.store] 0 = some (h2, 1) ∧
        heapRead (heapSet h2 0 100 2 5) 0
          = some (MapObject.records (exampleCache.Set 100 2 5).2.store) ∧
        heapRead (heapSet h2 0 100 2 5) 1 = some (MapObject.values exampleCache.AsMap) ∧
        heapRead (heapDelete h2 0 2) 1 = some (MapObject.values exampleCache.AsMap) :=
  ⟨by decide,
    ((C16_asMap_snapshot exampleCache (by decide)).1 2).trans (by decide),
    (C16_asMap_snapshot exampleCache (by decide)).2.2.2.1.trans (by decide),
    ((C16_asMap_snapshot exampleCache (by decide)).2.2.2.2
        [MapObject.records exampleCache.store] 0 rfl).elim
      (fun h2 h => ⟨h2, h.1, (h.2.2.2.2.1 100 2 5).1, (h.2.2.2.2.1 100 2 5).2,
        (h.2.2.2.2.2 2).2.1⟩)⟩

end Lookups

/-! ## GetOrLoad and Refresh at the edges -/

section Edges

variable {K V : Type} [DecidableEq K]

theorem getOrLoad_nil_of_absent [Inhabited V] (lc : loadingCache K V) (now : Int) (k : K)
    (habs : storeLookup k lc.LocalCache.store = none) :
    lc.GetOrLoad now k [] = ((default, none), lc) := by
  simp [loadingCache.GetOrLoad, habs, loadingCache.tryLoaders]

/-- C18, at the failing input: on the cache `NewLoadingCache()` builds,
`GetOrLoad(2)` with no loader, key `2` absent, returns the zero value with a
nil error (a success), not `ErrNoCacheEntry`; plain `Get(2)` on the same cache
does return `ErrNoCacheEntry`. The store is unchanged in both. -/
theorem C18_getOrLoad_no_loaders :
    storeLookup 2 (NewLoadingCache Nat Nat).LocalCache.store = none ∧
      ((NewLoadingCache Nat Nat).GetOrLoad 5 2 []).1 = (0, none) ∧
      ((NewLoadingCache Nat Nat).GetOrLoad 5 2 []).2.LocalCache
        = (NewLoadingCache Nat Nat).LocalCache ∧
      ((NewLoadingCache Nat Nat).Get 5 2).1 = (0, some Error.ErrNoCacheEntry) :=
  ⟨rfl, rfl, rfl, rfl⟩

/-- Counterexample to C19 as stated: `GetOrLoad(1)` at time `5` on
`noLoaderCache`, where key `1` is present with `accessAt = 0`, leaves the
record with `accessAt = 5`. -/
theorem C19_getOrLoad_hit_counterexample :
    storeLookup 1 noLoaderCache.LocalCache.store = some ⟨11, 0, 0⟩ ∧
      storeLookup 1 (noLoaderCache.GetOrLoad 5 1 []).2.LocalCache.store = some ⟨11, 5, 0⟩ ∧
      storeLookup 1 (noLoaderCache.GetOrLoad 5 1 []).2.LocalCache.store
        ≠ storeLookup 1 noLoaderCache.LocalCache.store :=
  ⟨by decide, by decide, by decide⟩

/-- C19 (amended): for every key `k` present in the store, `GetOrLoad(k, ...)`
on the hit path performs the same recency update as `Get`: it returns the
cached value with no error, calls no loader, sets the record's `accessAt` to
the time of the call and leaves its value and `writeAt`, and every other
record, unchanged; the local cache afterwards is the one `Get` leaves. -/
theorem C19_getOrLoad_hit_touches [Inhabited V] (lc : loadingCache K V) (now : Int) (k : K)
    (ls : List (Loader K V)) (r : record V)
    (hk : storeLookup k lc.LocalCache.store = some r) :
    (lc.GetOrLoad now k ls).1 = (r.entry, none) ∧
    (lc.GetOrLoad now k ls).2.loadCalls = lc.loadCalls ∧
    storeLookup k (lc.GetOrLoad now k ls).2.LocalCache.store
      = some { entry := r.entry, accessAt := now, writeAt := r.writeAt } ∧
    (∀ k2 : K, k2 ≠ k →
      storeLookup k2 (lc.GetOrLoad now k ls).2.LocalCache.store
        = storeLookup k2 lc.LocalCache.store) ∧
    (lc.GetOrLoad now k ls).2.LocalCache = (lc.LocalCache.Get now k).2 := by
  have hget : lc.GetOrLoad now k ls
      = ((r.entry, none),
          { lc with
            LocalCache :=
              { lc.LocalCache with store := storeTouch k now lc.LocalCache.store } }) := by
    simp [loadingCache.GetOrLoad, hk]
  rw [hget, get_of_present lc.LocalCache now k r hk]
  exact ⟨rfl, rfl, storeLookup_storeTouch_self now hk,
    fun k2 h2 => storeLookup_storeTouch_ne h2 now _, rfl⟩

/-- Witness of C19 (amended): `GetOrLoad(1)` at time `5` on `noLoaderCache`. -/
theorem C19_getOrLoad_hit_touches_witness :
    storeLookup 1 noLoaderCache.LocalCache.store = some ⟨11, 0, 0⟩ ∧
      (noLoaderCache.GetOrLoad 5 1 [failLoader]).1 = (11, none) ∧
      storeLookup 1 (noLoaderCache.GetOrLoad 5 1 [failLoader]).2.LocalCache.store
        = some ⟨11, 5, 0⟩ :=
  ⟨by decide,
    (C19_getOrLoad_hit_touches noLoaderCache 5 1 [failLoader] ⟨11, 0, 0⟩ (by decide)).1,
    (C19_getOrLoad_hit_touches noLoaderCache 5 1 [failLoader] ⟨11, 0, 0⟩ (by decide)).2.2.1⟩

theorem refresh_nil_loader_faults (lc : loadingCache K V) (now : Int) (k : K) (r : record V)
    (hload : lc.load = none) (hk : storeLookup k lc.LocalCache.store = some r) :
    lc.Refresh now k = Except.error Fault.nilDereference := by
  simp [loadingCache.Refresh, hk, hload]

/-- C20, at the failing input: on the cache `NewLoadingCache()` builds, after
`Set(1, 11)`, `Refresh(1)` calls the nil `load` field and faults; `Get(1)` on
the same cache, which checks the field, completes. -/
theorem C20_refresh_nil_loader :
    freshWithKey.load = none ∧
      storeLookup 1 freshWithKey.LocalCache.store = some ⟨11, 0, 0⟩ ∧
      freshWithKey.Refresh 5 1 = Except.error Fault.nilDereference ∧
      (freshWithKey.Get 5 1).1 = (11, none) :=
  ⟨rfl, by decide, rfl, rfl⟩

end Edges

end Loadcache
